import Mathlib

/-!
# Mouse proxy: report relay and motion-injection scheduler

A shallow embedding of `examples/mouseproxy/mouseproxy.c`.

* C machine integers are modelled as `Int`; a value of a `w`-bit type is the
  integer it denotes. Where the C arithmetic can leave the range of its type the
  model reduces the result modulo `2^w` (two's complement), which is what the
  Cortex-M0+ target does.
* The globals `inject_report`, `left_splits`, `device_report`, `to_consume` and
  the function-local static `start_ms` of `hid_task` form the `State`.
* `hid_task` returns the new state and the list of reports it hands to
  `tud_hid_report` during the call (empty, or one report).
* `device_report` and `to_consume` are only touched inside the recursive mutex, so
  a call of `process_mouse_report` on core 1 is atomic with respect to the locked
  part of `hid_task` on core 0; after the lock is released `hid_task` only uses its
  local copy. Executions are therefore modelled as sequences of whole calls.
-/

namespace MouseProxy

/-! ## Machine integers -/

def INT8_MAX : Int := 127
def INT8_MIN : Int := -128
def INT16_MAX : Int := 32767
def INT16_MIN : Int := -32768
def INT32_MAX : Int := 2147483647
def INT32_MIN : Int := -2147483648

/-- Conversion of an integer to `int8_t` (two's complement). -/
def wrap_int8 (v : Int) : Int := (v + 128) % 256 - 128

/-- Conversion of an integer to `int16_t` (two's complement). -/
def wrap_int16 (v : Int) : Int := (v + 32768) % 65536 - 32768

/-- Result of an `int32_t` operation whose exact value is `v` (two's complement). -/
def wrap_int32 (v : Int) : Int := (v + 2147483648) % 4294967296 - 2147483648

/-- Result of a `uint32_t` operation whose exact value is `v`. -/
def wrap_uint32 (v : Int) : Int := v % 4294967296

/-! ## Data model -/

/-- The packed 9-byte injection command: `int32_t x; int32_t y; int8_t splits`. -/
structure inject_report_t where
  x : Int
  y : Int
  splits : Int
  deriving DecidableEq, Repr

/-- The mouse report: `int8_t buttons, x, y, wheel; int16_t lx, ly`. -/
structure device_report_t where
  buttons : Int
  x : Int
  y : Int
  wheel : Int
  lx : Int
  ly : Int
  deriving DecidableEq, Repr

/-- The value of `device_report_t report = {0}`. -/
def zero_report : device_report_t :=
  { buttons := 0, x := 0, y := 0, wheel := 0, lx := 0, ly := 0 }

/-- The globals of `mouseproxy.c` together with the static `start_ms` of `hid_task`. -/
structure State where
  inject_report : inject_report_t
  left_splits : Int
  device_report : device_report_t
  to_consume : Bool
  start_ms : Int
  deriving DecidableEq, Repr

/-- The initial values of the globals: everything zero, nothing to consume. -/
def init : State :=
  { inject_report := { x := 0, y := 0, splits := 0 }
    left_splits := 0
    device_report := zero_report
    to_consume := false
    start_ms := 0 }

/-- Every field of a report holds a value of its C type. -/
def device_report_t.InRange (r : device_report_t) : Prop :=
  (INT8_MIN ≤ r.buttons ∧ r.buttons ≤ INT8_MAX) ∧
  (INT8_MIN ≤ r.x ∧ r.x ≤ INT8_MAX) ∧
  (INT8_MIN ≤ r.y ∧ r.y ≤ INT8_MAX) ∧
  (INT8_MIN ≤ r.wheel ∧ r.wheel ≤ INT8_MAX) ∧
  (INT16_MIN ≤ r.lx ∧ r.lx ≤ INT16_MAX) ∧
  (INT16_MIN ≤ r.ly ∧ r.ly ≤ INT16_MAX)

/-- Every field of an injection command holds a value of its C type. -/
def inject_report_t.InRange (c : inject_report_t) : Prop :=
  (INT32_MIN ≤ c.x ∧ c.x ≤ INT32_MAX) ∧
  (INT32_MIN ≤ c.y ∧ c.y ≤ INT32_MAX) ∧
  (INT8_MIN ≤ c.splits ∧ c.splits ≤ INT8_MAX)

instance (r : device_report_t) : Decidable r.InRange := by
  unfold device_report_t.InRange; infer_instance

instance (c : inject_report_t) : Decidable c.InRange := by
  unfold inject_report_t.InRange; infer_instance

/-! ## Device HID -/

/-- The function `clamp_to_int8`: saturate an `int32_t` to the `int8_t` range. -/
def clamp_to_int8 (x : Int) : Int :=
  if x > INT8_MAX then INT8_MAX
  else if x < INT8_MIN then INT8_MIN
  else wrap_int8 x

/-- The polling period of `hid_task`, in milliseconds. -/
def interval_ms : Int := 1

/-- The function `hid_task`, called when the millisecond clock reads `board_millis`.
Returns the new state and the reports handed to `tud_hid_report`. -/
def hid_task (board_millis : Int) (s : State) : State × List device_report_t :=
  if wrap_uint32 (board_millis - s.start_ms) < interval_ms then (s, [])
  else
    let s := { s with start_ms := wrap_uint32 (s.start_ms + interval_ms) }
    if s.to_consume = true ∨ s.left_splits > 0 then
      let report := if s.to_consume = true then s.device_report else zero_report
      let s := if s.to_consume = true then { s with to_consume := false } else s
      if s.left_splits > 0 ∧ s.inject_report.splits > 0 then
        let x := wrap_int32 (report.x + Int.tdiv s.inject_report.x s.inject_report.splits)
        let report :=
          if x > INT8_MAX then { report with x := INT8_MAX }
          else if x < INT8_MIN then { report with x := INT8_MIN }
          else { report with x := wrap_int8 x }
        let y := wrap_int32 (report.y + Int.tdiv s.inject_report.y s.inject_report.splits)
        let report :=
          if y > INT8_MAX then { report with y := INT8_MAX }
          else if y < INT8_MIN then { report with y := INT8_MIN }
          else { report with y := wrap_int8 y }
        let lx := wrap_int32 (report.lx + Int.tdiv s.inject_report.x s.inject_report.splits)
        let report :=
          if lx > INT16_MAX then { report with lx := INT16_MAX }
          else if lx < INT16_MIN then { report with lx := INT16_MIN }
          else { report with lx := wrap_int16 lx }
        let ly := wrap_int32 (report.ly + Int.tdiv s.inject_report.y s.inject_report.splits)
        let report :=
          if ly > INT16_MAX then { report with ly := INT16_MAX }
          else if ly < INT16_MIN then { report with ly := INT16_MIN }
          else { report with ly := wrap_int16 ly }
        ({ s with left_splits := s.left_splits - 1 }, [report])
      else (s, [report])
    else (s, [])

/-- Value of the little-endian `int32_t` stored in the four bytes `b0 b1 b2 b3`. -/
def read_int32 (b0 b1 b2 b3 : Fin 256) : Int :=
  wrap_int32 (b0.val + 256 * b1.val + 65536 * b2.val + 16777216 * b3.val)

/-- Value of the `int8_t` stored in the byte `b`. -/
def read_int8 (b : Fin 256) : Int := wrap_int8 b.val

set_option linter.unusedVariables false in
/-- The function `tud_hid_set_report_cb`. `buffer i` is the byte at `buffer + i`;
the callback reads the packed `inject_report_t` at `buffer` (offsets 0..8, the
target is little-endian) and does not look at `bufsize`. -/
def tud_hid_set_report_cb (buffer : Nat → Fin 256) (bufsize : Nat) (s : State) : State :=
  let report : inject_report_t :=
    { x := read_int32 (buffer 0) (buffer 1) (buffer 2) (buffer 3)
      y := read_int32 (buffer 4) (buffer 5) (buffer 6) (buffer 7)
      splits := read_int8 (buffer 8) }
  { s with
    inject_report := { x := report.x, y := report.y, splits := report.splits }
    left_splits := report.splits }

/-! ## Host HID -/

/-- The function `process_mouse_report`: publish a report into the shared slot. -/
def process_mouse_report (report : device_report_t) (s : State) : State :=
  { s with
    device_report :=
      { buttons := report.buttons, x := report.x, y := report.y
        wheel := report.wheel, lx := report.lx, ly := report.ly }
    to_consume := true }

/-! ## Executions

core 0 runs `while (true) { tud_task(); hid_task(); }`, where `tud_task` calls
`tud_hid_set_report_cb` when a control request arrives; core 1 calls
`process_mouse_report` for every report of the physical mouse. -/

/-- One call into the relay: a call of `hid_task` at a clock value, a call of
`process_mouse_report`, or a call of `tud_hid_set_report_cb`. -/
inductive Event where
  | tick (board_millis : Int)
  | publish (report : device_report_t)
  | command (buffer : Nat → Fin 256) (bufsize : Nat)

/-- Effect of one call: the new state and the reports handed to `tud_hid_report`. -/
def step (e : Event) (s : State) : State × List device_report_t :=
  match e with
  | .tick board_millis => hid_task board_millis s
  | .publish report => (process_mouse_report report s, [])
  | .command buffer bufsize => (tud_hid_set_report_cb buffer bufsize s, [])

/-- Effect of a sequence of calls: the final state and all reports handed to
`tud_hid_report`, in order. -/
def run : List Event → State → State × List device_report_t
  | [], s => (s, [])
  | e :: es, s => ((run es (step e s).1).1, (step e s).2 ++ (run es (step e s).1).2)

/-- The call is a control request. -/
def Event.isCommand : Event → Bool
  | .command _ _ => true
  | _ => false

/-- The 1 ms time gate of `hid_task` lets the call through (the call is eligible). -/
def gate_open (board_millis : Int) (s : State) : Bool :=
  !decide (wrap_uint32 (board_millis - s.start_ms) < interval_ms)

/-- Every call of `hid_task` in the sequence passes the time gate. -/
def ticks_pass : List Event → State → Bool
  | [], _ => true
  | .tick board_millis :: es, s =>
      gate_open board_millis s && ticks_pass es (hid_task board_millis s).1
  | e :: es, s => ticks_pass es (step e s).1

/-- Number of calls of `hid_task` in the sequence that pass the time gate. -/
def eligible_ticks : List Event → State → Nat
  | [], _ => 0
  | .tick board_millis :: es, s =>
      (if gate_open board_millis s then 1 else 0) + eligible_ticks es (hid_task board_millis s).1
  | e :: es, s => eligible_ticks es (step e s).1

/-- The injected step `(inject_report.x / splits, inject_report.y / splits)` that a
call of `hid_task` adds to its working report, if the call reaches the injection
branch (`left_splits > 0 && inject_report.splits > 0`). -/
def applied_step (board_millis : Int) (s : State) : Option (Int × Int) :=
  if gate_open board_millis s = true ∧ (s.to_consume = true ∨ s.left_splits > 0) ∧
      s.left_splits > 0 ∧ s.inject_report.splits > 0 then
    some (Int.tdiv s.inject_report.x s.inject_report.splits,
          Int.tdiv s.inject_report.y s.inject_report.splits)
  else none

/-- The injected steps applied by the calls of `hid_task` in the sequence, in order. -/
def applied_steps : List Event → State → List (Int × Int)
  | [], _ => []
  | .tick board_millis :: es, s =>
      (applied_step board_millis s).toList ++ applied_steps es (hid_task board_millis s).1
  | e :: es, s => applied_steps es (step e s).1

/-- The working report of `hid_task`: the slot if `to_consume`, else all zero. -/
def working_report (s : State) : device_report_t :=
  if s.to_consume = true then s.device_report else zero_report

/-- Saturation to the `int8_t` range, on exact integers. -/
def saturate8 (v : Int) : Int :=
  if v > INT8_MAX then INT8_MAX else if v < INT8_MIN then INT8_MIN else v

/-- Saturation to the `int16_t` range, on exact integers. -/
def saturate16 (v : Int) : Int :=
  if v > INT16_MAX then INT16_MAX else if v < INT16_MIN then INT16_MIN else v

/-- The report emitted when the step `st` is added to the working report `r`:
each sum is formed in `int32_t`, then saturated to the field. -/
def inject_into (r : device_report_t) (st : Int × Int) : device_report_t :=
  { r with
    x := saturate8 (wrap_int32 (r.x + st.1))
    y := saturate8 (wrap_int32 (r.y + st.2))
    lx := saturate16 (wrap_int32 (r.lx + st.1))
    ly := saturate16 (wrap_int32 (r.ly + st.2)) }

/-- The byte holding the low 8 bits of `v`. -/
def low_byte (v : Int) : Fin 256 := ⟨(v % 256).toNat, by omega⟩

/-- The wire form of an injection command as the test client sends it: `x` and `y`
as little-endian 32-bit two's complement, then `splits` as one byte. -/
def pack_inject_report (c : inject_report_t) : List (Fin 256) :=
  [low_byte c.x, low_byte (c.x / 256), low_byte (c.x / 65536), low_byte (c.x / 16777216),
   low_byte c.y, low_byte (c.y / 256), low_byte (c.y / 65536), low_byte (c.y / 16777216),
   low_byte c.splits]

/-- The bytes the test client passes to `hid_send_feature_report`: its packed struct
`{report_id = 0, x = 100, y = 100, splits = 1}`. The leading report-id byte is not part
of the payload the device receives. -/
def test_client_report : List (Fin 256) :=
  0 :: pack_inject_report { x := 100, y := 100, splits := 1 }

/-- Memory starting at a buffer that holds `bytes`, followed by zero bytes. -/
def buffer_of (bytes : List (Fin 256)) : Nat → Fin 256 :=
  fun i => bytes.getD i 0

/-- A sample state: the command `{x = 100, y = -7, splits = 2}` has just been stored
and the mouse has published a report close to the ends of its ranges. -/
def sample_state : State :=
  process_mouse_report
    { buttons := 1, x := 120, y := -5, wheel := 0, lx := 300, ly := -32768 }
    (tud_hid_set_report_cb
      (buffer_of (pack_inject_report { x := 100, y := -7, splits := 2 })) 9 init)

/-- A sample live report with `x = 5`. -/
def sample_live : device_report_t :=
  { buttons := 1, x := 5, y := -3, wheel := 2, lx := 0, ly := 0 }

/-- Eleven rounds of the sample live report, one per millisecond. -/
def sample_rounds : List (device_report_t × Int) :=
  [1, 2, 3, 4, 5, 6, 7, 8, 9, 10, 11].map (fun t => (sample_live, t))

/-- A state whose slot still holds an old report: the command `{30, -30, 3}` was
stored, the sample live report was published and one call of `hid_task` consumed it,
so nothing is pending and two splits are left. -/
def stale_state : State :=
  (hid_task 1
    (process_mouse_report sample_live
      (tud_hid_set_report_cb
        (buffer_of (pack_inject_report { x := 30, y := -30, splits := 3 })) 9 init))).1

/-- The relation between `left_splits` and `inject_report.splits` claimed for every
reachable state: a positive `splits` bounds a non-negative `left_splits`, and a
`splits` that is zero or negative equals `left_splits`. -/
def injection_invariant (s : State) : Prop :=
  (s.inject_report.splits > 0 ∧ 0 ≤ s.left_splits ∧ s.left_splits ≤ s.inject_report.splits) ∨
  (s.inject_report.splits ≤ 0 ∧ s.left_splits = s.inject_report.splits)

/-- The value is a `uint32_t`. -/
def is_uint32 (v : Int) : Prop := 0 ≤ v ∧ v < 4294967296

/-- The calls made when the mouse publishes a report before every call of `hid_task`:
for each pair, `process_mouse_report` on the report, then `hid_task` at the clock value. -/
def live_rounds : List (device_report_t × Int) → List Event
  | [] => []
  | p :: ps => Event.publish p.1 :: Event.tick p.2 :: live_rounds ps

end MouseProxy

/-! ## Properties -/

namespace MouseProxy

/-! ### Machine integers -/

theorem wrap_int32_of_range (v : Int) (h1 : INT32_MIN ≤ v) (h2 : v ≤ INT32_MAX) :
    wrap_int32 v = v := by
  unfold wrap_int32; unfold INT32_MIN at h1; unfold INT32_MAX at h2; omega

theorem wrap_int8_of_range (v : Int) (h1 : INT8_MIN ≤ v) (h2 : v ≤ INT8_MAX) :
    wrap_int8 v = v := by
  unfold wrap_int8; unfold INT8_MIN at h1; unfold INT8_MAX at h2; omega

theorem wrap_int16_of_range (v : Int) (h1 : INT16_MIN ≤ v) (h2 : v ≤ INT16_MAX) :
    wrap_int16 v = v := by
  unfold wrap_int16; unfold INT16_MIN at h1; unfold INT16_MAX at h2; omega

theorem saturate8_range (v : Int) : INT8_MIN ≤ saturate8 v ∧ saturate8 v ≤ INT8_MAX := by
  unfold saturate8 INT8_MIN INT8_MAX; split_ifs <;> omega

theorem saturate16_range (v : Int) : INT16_MIN ≤ saturate16 v ∧ saturate16 v ≤ INT16_MAX := by
  unfold saturate16 INT16_MIN INT16_MAX; split_ifs <;> omega

/-! ### The shape of one call of `hid_task` -/

theorem clamp_x_eq (b y w lx ly v : Int) :
    (if v > INT8_MAX then (⟨b, INT8_MAX, y, w, lx, ly⟩ : device_report_t)
     else if v < INT8_MIN then ⟨b, INT8_MIN, y, w, lx, ly⟩
     else ⟨b, wrap_int8 v, y, w, lx, ly⟩) = ⟨b, saturate8 v, y, w, lx, ly⟩ := by
  unfold saturate8
  split_ifs with h1 h2
  · rfl
  · rfl
  · rw [wrap_int8_of_range v (by omega) (by omega)]

theorem clamp_y_eq (b x w lx ly v : Int) :
    (if v > INT8_MAX then (⟨b, x, INT8_MAX, w, lx, ly⟩ : device_report_t)
     else if v < INT8_MIN then ⟨b, x, INT8_MIN, w, lx, ly⟩
     else ⟨b, x, wrap_int8 v, w, lx, ly⟩) = ⟨b, x, saturate8 v, w, lx, ly⟩ := by
  unfold saturate8
  split_ifs with h1 h2
  · rfl
  · rfl
  · rw [wrap_int8_of_range v (by omega) (by omega)]

theorem clamp_lx_eq (b x y w ly v : Int) :
    (if v > INT16_MAX then (⟨b, x, y, w, INT16_MAX, ly⟩ : device_report_t)
     else if v < INT16_MIN then ⟨b, x, y, w, INT16_MIN, ly⟩
     else ⟨b, x, y, w, wrap_int16 v, ly⟩) = ⟨b, x, y, w, saturate16 v, ly⟩ := by
  unfold saturate16
  split_ifs with h1 h2
  · rfl
  · rfl
  · rw [wrap_int16_of_range v (by omega) (by omega)]

theorem clamp_ly_eq (b x y w lx v : Int) :
    (if v > INT16_MAX then (⟨b, x, y, w, lx, INT16_MAX⟩ : device_report_t)
     else if v < INT16_MIN then ⟨b, x, y, w, lx, INT16_MIN⟩
     else ⟨b, x, y, w, lx, wrap_int16 v⟩) = ⟨b, x, y, w, lx, saturate16 v⟩ := by
  unfold saturate16
  split_ifs with h1 h2
  · rfl
  · rfl
  · rw [wrap_int16_of_range v (by omega) (by omega)]

/-- One call of `hid_task`, case by case: gate closed; gate open and idle; gate open
with a report to send, with or without an injected step. -/
theorem hid_task_eq (now : Int) (s : State) :
    hid_task now s =
      if gate_open now s = true then
        if s.to_consume = true ∨ s.left_splits > 0 then
          if s.left_splits > 0 ∧ s.inject_report.splits > 0 then
            ({ s with
                start_ms := wrap_uint32 (s.start_ms + interval_ms)
                to_consume := false
                left_splits := s.left_splits - 1 },
             [inject_into (working_report s)
                (Int.tdiv s.inject_report.x s.inject_report.splits,
                 Int.tdiv s.inject_report.y s.inject_report.splits)])
          else
            ({ s with
                start_ms := wrap_uint32 (s.start_ms + interval_ms)
                to_consume := false },
             [working_report s])
        else ({ s with start_ms := wrap_uint32 (s.start_ms + interval_ms) }, [])
      else (s, []) := by
  obtain ⟨inj, left, dev, pending, start⟩ := s
  unfold hid_task gate_open working_report inject_into
  simp only [clamp_x_eq, clamp_y_eq, clamp_lx_eq, clamp_ly_eq]
  by_cases hgate : wrap_uint32 (now - start) < interval_ms
  · simp [hgate]
  · cases pending <;> simp [hgate]

theorem hid_task_inject_report (now : Int) (s : State) :
    (hid_task now s).1.inject_report = s.inject_report := by
  rw [hid_task_eq]; split_ifs <;> rfl

theorem hid_task_device_report (now : Int) (s : State) :
    (hid_task now s).1.device_report = s.device_report := by
  rw [hid_task_eq]; split_ifs <;> rfl

theorem hid_task_closed (now : Int) (s : State) (h : gate_open now s = false) :
    hid_task now s = (s, []) := by
  rw [hid_task_eq]; simp [h]

/-- A call with nothing to consume and no distribution left sends nothing and keeps
everything but `start_ms`. -/
theorem hid_task_idle (now : Int) (s : State) (hp : s.to_consume = false)
    (hl : s.left_splits ≤ 0) :
    (hid_task now s).2 = [] ∧ (hid_task now s).1.to_consume = false ∧
      (hid_task now s).1.left_splits = s.left_splits := by
  have hnot : ¬ (s.to_consume = true ∨ s.left_splits > 0) := by
    rw [hp]; simp; omega
  rw [hid_task_eq]
  by_cases hg : gate_open now s = true
  · rw [if_pos hg, if_neg hnot]; exact ⟨rfl, hp, rfl⟩
  · rw [if_neg hg]; exact ⟨rfl, hp, rfl⟩

/-- Calls of `hid_task` alone, from a state with nothing to consume and no
distribution left, send nothing and keep the relay and injection state. -/
theorem run_ticks_idle (nows : List Int) (s : State) (hp : s.to_consume = false)
    (hl : s.left_splits ≤ 0) :
    (run (nows.map Event.tick) s).2 = [] ∧
      (run (nows.map Event.tick) s).1.to_consume = false ∧
      (run (nows.map Event.tick) s).1.device_report = s.device_report ∧
      (run (nows.map Event.tick) s).1.inject_report = s.inject_report ∧
      (run (nows.map Event.tick) s).1.left_splits = s.left_splits := by
  induction nows generalizing s with
  | nil => exact ⟨rfl, hp, rfl, rfl, rfl⟩
  | cons now rest ih =>
    obtain ⟨hout, hp1, hl1⟩ := hid_task_idle now s hp hl
    obtain ⟨h1, h2, h3, h4, h5⟩ := ih (hid_task now s).1 hp1 (by rw [hl1]; exact hl)
    simp only [List.map_cons, run, step]
    refine ⟨by rw [hout, h1]; rfl, h2, ?_, ?_, ?_⟩
    · rw [h3, hid_task_device_report]
    · rw [h4, hid_task_inject_report]
    · rw [h5, hl1]

/-! ### C1: one report per eligible call when pending or active, none otherwise -/

/-- C1: a call of `hid_task` that passes the time gate hands exactly one report to
`tud_hid_report` if `to_consume` is set or `left_splits > 0`, and none otherwise; when
it hands none, `to_consume`, `device_report`, `inject_report` and `left_splits` keep
their values. From a state with `to_consume` clear and `left_splits ≤ 0`, any sequence
of calls of `hid_task` (at any clock values) hands over no report at all. -/
theorem hid_task_report_count (s : State) :
    (∀ now : Int, gate_open now s = true →
      (hid_task now s).2.length = (if s.to_consume = true ∨ s.left_splits > 0 then 1 else 0) ∧
      (¬ (s.to_consume = true ∨ s.left_splits > 0) →
        (hid_task now s).2 = [] ∧
        (hid_task now s).1.to_consume = s.to_consume ∧
        (hid_task now s).1.device_report = s.device_report ∧
        (hid_task now s).1.inject_report = s.inject_report ∧
        (hid_task now s).1.left_splits = s.left_splits)) ∧
    (s.to_consume = false → s.left_splits ≤ 0 → ∀ nows : List Int,
      (run (nows.map Event.tick) s).2 = [] ∧
      (run (nows.map Event.tick) s).1.to_consume = s.to_consume ∧
      (run (nows.map Event.tick) s).1.device_report = s.device_report ∧
      (run (nows.map Event.tick) s).1.inject_report = s.inject_report ∧
      (run (nows.map Event.tick) s).1.left_splits = s.left_splits) := by
  refine ⟨fun now hg => ⟨?_, fun hnot => ?_⟩, fun hp hl nows => ?_⟩
  · rw [hid_task_eq]; simp only [hg, if_true]; split_ifs <;> rfl
  · rw [hid_task_eq, if_pos hg, if_neg hnot]; exact ⟨rfl, rfl, rfl, rfl, rfl⟩
  · rw [hp]; exact run_ticks_idle nows s hp hl

theorem hid_task_report_count_witness :
    (hid_task 1 (process_mouse_report zero_report init)).2.length = 1 ∧
    (hid_task 1 init).2 = [] ∧
    (run ([1, 2, 2, 7].map Event.tick) init).2 = [] :=
  ⟨((hid_task_report_count (process_mouse_report zero_report init)).1 1 (by decide)).1,
   (((hid_task_report_count init).1 1 (by decide)).2 (by decide)).1,
   ((hid_task_report_count init).2 rfl (by decide) [1, 2, 2, 7]).1⟩

/-! ### C2: the stored fields stay in range and are exact when the sum fits -/

theorem saturate8_wrap_exact (a st : Int) (h1 : INT8_MIN ≤ a + st) (h2 : a + st ≤ INT8_MAX) :
    saturate8 (wrap_int32 (a + st)) = a + st := by
  unfold saturate8 wrap_int32
  unfold INT8_MIN at *
  unfold INT8_MAX at *
  split_ifs <;> omega

theorem saturate16_wrap_exact (a st : Int) (h1 : INT16_MIN ≤ a + st)
    (h2 : a + st ≤ INT16_MAX) :
    saturate16 (wrap_int32 (a + st)) = a + st := by
  unfold saturate16 wrap_int32
  unfold INT16_MIN at *
  unfold INT16_MAX at *
  split_ifs <;> omega

theorem clamp_to_int8_eq (v : Int) : clamp_to_int8 v = saturate8 v := by
  unfold clamp_to_int8 saturate8
  split_ifs with h1 h2
  · rfl
  · rfl
  · exact wrap_int8_of_range v (by omega) (by omega)

/-- A call of `hid_task` that reaches the injection branch sends the working report
with the step added and saturated, and decrements `left_splits`. -/
theorem hid_task_inject (now : Int) (s : State) (hgate : gate_open now s = true)
    (hleft : 0 < s.left_splits) (hsplits : 0 < s.inject_report.splits) :
    hid_task now s =
      ({ s with
          start_ms := wrap_uint32 (s.start_ms + interval_ms)
          to_consume := false
          left_splits := s.left_splits - 1 },
       [inject_into (working_report s)
          (Int.tdiv s.inject_report.x s.inject_report.splits,
           Int.tdiv s.inject_report.y s.inject_report.splits)]) := by
  rw [hid_task_eq, if_pos hgate, if_pos (Or.inr hleft), if_pos ⟨hleft, hsplits⟩]

/-- C2: in a call of `hid_task` that passes the gate and reaches the injection step
(`left_splits > 0`, `inject_report.splits > 0`), with working report `a` (the slot if
`to_consume`, else zero) and steps `inject_report.x / splits`, `inject_report.y / splits`
(C division): the emitted `x` and `y` lie in the `int8_t` range and `lx`, `ly` in the
`int16_t` range, and each equals base plus step whenever that exact sum is inside the
range of the field. The unused helper `clamp_to_int8` has the same two properties. -/
theorem injection_step_in_range_and_exact (now : Int) (s : State)
    (hgate : gate_open now s = true) (hleft : 0 < s.left_splits)
    (hsplits : 0 < s.inject_report.splits) :
    (∃ r, (hid_task now s).2 = [r] ∧
      (INT8_MIN ≤ r.x ∧ r.x ≤ INT8_MAX ∧
        (INT8_MIN ≤ (working_report s).x + Int.tdiv s.inject_report.x s.inject_report.splits →
         (working_report s).x + Int.tdiv s.inject_report.x s.inject_report.splits ≤ INT8_MAX →
         r.x = (working_report s).x + Int.tdiv s.inject_report.x s.inject_report.splits)) ∧
      (INT8_MIN ≤ r.y ∧ r.y ≤ INT8_MAX ∧
        (INT8_MIN ≤ (working_report s).y + Int.tdiv s.inject_report.y s.inject_report.splits →
         (working_report s).y + Int.tdiv s.inject_report.y s.inject_report.splits ≤ INT8_MAX →
         r.y = (working_report s).y + Int.tdiv s.inject_report.y s.inject_report.splits)) ∧
      (INT16_MIN ≤ r.lx ∧ r.lx ≤ INT16_MAX ∧
        (INT16_MIN ≤ (working_report s).lx + Int.tdiv s.inject_report.x s.inject_report.splits →
         (working_report s).lx + Int.tdiv s.inject_report.x s.inject_report.splits ≤ INT16_MAX →
         r.lx = (working_report s).lx + Int.tdiv s.inject_report.x s.inject_report.splits)) ∧
      (INT16_MIN ≤ r.ly ∧ r.ly ≤ INT16_MAX ∧
        (INT16_MIN ≤ (working_report s).ly + Int.tdiv s.inject_report.y s.inject_report.splits →
         (working_report s).ly + Int.tdiv s.inject_report.y s.inject_report.splits ≤ INT16_MAX →
         r.ly = (working_report s).ly + Int.tdiv s.inject_report.y s.inject_report.splits))) ∧
    (∀ v : Int, INT8_MIN ≤ clamp_to_int8 v ∧ clamp_to_int8 v ≤ INT8_MAX ∧
      (INT8_MIN ≤ v → v ≤ INT8_MAX → clamp_to_int8 v = v)) := by
  refine ⟨⟨_, by rw [hid_task_inject now s hgate hleft hsplits], ?_, ?_, ?_, ?_⟩, fun v => ?_⟩
  · exact ⟨(saturate8_range _).1, (saturate8_range _).2, saturate8_wrap_exact _ _⟩
  · exact ⟨(saturate8_range _).1, (saturate8_range _).2, saturate8_wrap_exact _ _⟩
  · exact ⟨(saturate16_range _).1, (saturate16_range _).2, saturate16_wrap_exact _ _⟩
  · exact ⟨(saturate16_range _).1, (saturate16_range _).2, saturate16_wrap_exact _ _⟩
  · rw [clamp_to_int8_eq]
    refine ⟨(saturate8_range v).1, (saturate8_range v).2, fun h1 h2 => ?_⟩
    unfold saturate8; unfold INT8_MIN at *; unfold INT8_MAX at *
    split_ifs <;> omega

theorem injection_step_in_range_and_exact_witness :
    gate_open 1 sample_state = true ∧ 0 < sample_state.left_splits ∧
    0 < sample_state.inject_report.splits ∧
    ∃ r, (hid_task 1 sample_state).2 = [r] ∧ r.x ≤ INT8_MAX ∧ r.y = -8 ∧ r.lx = 350 ∧
      INT16_MIN ≤ r.ly :=
  ⟨by decide, by decide, by decide,
   match injection_step_in_range_and_exact 1 sample_state (by decide) (by decide)
      (by decide) with
   | ⟨⟨r, hr, hx, hy, hlx, hly⟩, _⟩ =>
     ⟨r, hr, hx.2.1, hy.2.2 (by decide) (by decide), hlx.2.2 (by decide) (by decide),
      hly.1⟩⟩

/-! ### C3: the `int32_t` sum of base and step can leave the `int32_t` range -/

/-- C3, the code at `report.x = 1`, `inject_report = {x = 2147483647, y = 0, splits = 1}`:
the sum `1 + 2147483647` does not fit `int32_t`, the reduced value is `-2147483648`, and
`hid_task` stores `INT8_MIN` in `x` (while `lx`, whose base is 0, gets `INT16_MAX`);
the exact sum saturated to the `int8_t` range is `INT8_MAX`. -/
theorem injection_step_int32_overflow :
    (tud_hid_set_report_cb (buffer_of [255, 255, 255, 127, 0, 0, 0, 0, 1]) 9 init).inject_report
      = { x := 2147483647, y := 0, splits := 1 } ∧
    (hid_task 1
      (process_mouse_report { buttons := 0, x := 1, y := 0, wheel := 0, lx := 0, ly := 0 }
        (tud_hid_set_report_cb (buffer_of [255, 255, 255, 127, 0, 0, 0, 0, 1]) 9 init))).2
      = [{ buttons := 0, x := -128, y := 0, wheel := 0, lx := 32767, ly := 0 }] ∧
    saturate8 (1 + Int.tdiv 2147483647 1) = 127 := by
  decide

/-! ### Distribution of a command over calls of `hid_task` -/

theorem hid_task_left_splits (now : Int) (s : State) :
    (hid_task now s).1.left_splits =
      if gate_open now s = true ∧ s.left_splits > 0 ∧ s.inject_report.splits > 0
      then s.left_splits - 1 else s.left_splits := by
  rw [hid_task_eq]
  by_cases hg : gate_open now s = true
  · by_cases hl : s.left_splits > 0
    · by_cases hs : s.inject_report.splits > 0
      · rw [if_pos hg, if_pos (Or.inr hl), if_pos ⟨hl, hs⟩, if_pos ⟨hg, hl, hs⟩]
      · have h1 : ¬ (s.left_splits > 0 ∧ s.inject_report.splits > 0) := fun h => hs h.2
        have h2 : ¬ (gate_open now s = true ∧ s.left_splits > 0 ∧ s.inject_report.splits > 0) :=
          fun h => hs h.2.2
        rw [if_pos hg, if_pos (Or.inr hl), if_neg h1, if_neg h2]
    · have h1 : ¬ (s.left_splits > 0 ∧ s.inject_report.splits > 0) := fun h => hl h.1
      have h2 : ¬ (gate_open now s = true ∧ s.left_splits > 0 ∧ s.inject_report.splits > 0) :=
        fun h => hl h.2.1
      rw [if_pos hg, if_neg h1, if_neg h2]
      split_ifs <;> rfl
  · have h2 : ¬ (gate_open now s = true ∧ s.left_splits > 0 ∧ s.inject_report.splits > 0) :=
      fun h => hg h.1
    rw [if_neg hg, if_neg h2]

/-- What `applied_step` records is what the call does: a call with an applied step
sends the working report with that step added (in `int32_t`) and saturated per field;
a call without one sends the working report as it is, or nothing. -/
theorem hid_task_output_applied_step (now : Int) (s : State) :
    (hid_task now s).2 =
      match applied_step now s with
      | some st => [inject_into (working_report s) st]
      | none =>
        if gate_open now s = true ∧ (s.to_consume = true ∨ s.left_splits > 0)
        then [working_report s] else [] := by
  rw [hid_task_eq]
  unfold applied_step
  by_cases hg : gate_open now s = true
  · by_cases hc : s.to_consume = true ∨ s.left_splits > 0
    · by_cases hi : s.left_splits > 0 ∧ s.inject_report.splits > 0
      · rw [if_pos hg, if_pos hc, if_pos hi, if_pos ⟨hg, hc, hi⟩]
      · have h2 : ¬ (gate_open now s = true ∧ (s.to_consume = true ∨ s.left_splits > 0) ∧
            s.left_splits > 0 ∧ s.inject_report.splits > 0) := fun h => hi h.2.2
        rw [if_pos hg, if_pos hc, if_neg hi, if_neg h2]
        simp only []
        rw [if_pos ⟨hg, hc⟩]
    · have h2 : ¬ (gate_open now s = true ∧ (s.to_consume = true ∨ s.left_splits > 0) ∧
          s.left_splits > 0 ∧ s.inject_report.splits > 0) := fun h => hc h.2.1
      have h3 : ¬ (gate_open now s = true ∧ (s.to_consume = true ∨ s.left_splits > 0)) :=
        fun h => hc h.2
      rw [if_pos hg, if_neg hc, if_neg h2]
      simp only []
      rw [if_neg h3]
  · have h2 : ¬ (gate_open now s = true ∧ (s.to_consume = true ∨ s.left_splits > 0) ∧
        s.left_splits > 0 ∧ s.inject_report.splits > 0) := fun h => hg h.1
    have h3 : ¬ (gate_open now s = true ∧ (s.to_consume = true ∨ s.left_splits > 0)) :=
      fun h => hg h.1
    rw [if_neg hg, if_neg h2]
    simp only []
    rw [if_neg h3]

/-- While no control request arrives, a stored command with `splits > 0` and `k`
splits left is applied by the first `k` eligible calls of `hid_task`, each with the
same step, and by no later call. -/
theorem applied_steps_no_command (es : List Event) (s : State) (k : Nat)
    (hcmd : ∀ e ∈ es, e.isCommand = false) (hs : 0 < s.inject_report.splits)
    (hk : s.left_splits = k) :
    applied_steps es s =
      List.replicate (min k (eligible_ticks es s))
        (Int.tdiv s.inject_report.x s.inject_report.splits,
         Int.tdiv s.inject_report.y s.inject_report.splits) := by
  induction es generalizing s k with
  | nil => simp [applied_steps, eligible_ticks]
  | cons e es ih =>
    have hrest : ∀ e ∈ es, e.isCommand = false := fun e he => hcmd e (List.mem_cons_of_mem _ he)
    cases e with
    | tick now =>
      simp only [applied_steps, eligible_ticks]
      have hinj := hid_task_inject_report now s
      have hleft := hid_task_left_splits now s
      by_cases hg : gate_open now s = true
      · cases k with
        | zero =>
          have hl0 : ¬ s.left_splits > 0 := by rw [hk]; simp
          rw [if_neg (fun h => hl0 h.2.1)] at hleft
          have := ih (hid_task now s).1 0 hrest (by rw [hinj]; exact hs) (by rw [hleft, hk])
          rw [this]
          simp [applied_step, hl0]
        | succ k =>
          have hl : s.left_splits > 0 := by rw [hk]; push_cast; omega
          rw [if_pos ⟨hg, hl, hs⟩] at hleft
          have := ih (hid_task now s).1 k hrest (by rw [hinj]; exact hs)
            (by rw [hleft, hk]; push_cast; omega)
          rw [this, hinj]
          simp only [applied_step, hg, hl, hs, if_true, and_self, or_true, Option.toList]
          rw [show min (k + 1) (1 + eligible_ticks es (hid_task now s).1)
              = min k (eligible_ticks es (hid_task now s).1) + 1 by omega]
          rw [List.replicate_succ]; rfl
      · have hclosed : gate_open now s = false := by simpa using hg
        rw [hid_task_closed now s hclosed]
        rw [ih s k hrest hs hk]
        simp [applied_step, hclosed]
    | publish r =>
      simp only [applied_steps, eligible_ticks, step]
      exact ih (process_mouse_report r s) k hrest hs hk
    | command buffer bufsize =>
      have := hcmd (Event.command buffer bufsize) (List.mem_cons_self _ _)
      simp [Event.isCommand] at this

/-- While no control request arrives, the stored command stays as it is. -/
theorem run_inject_report_no_command (es : List Event) (s : State)
    (hcmd : ∀ e ∈ es, e.isCommand = false) :
    (run es s).1.inject_report = s.inject_report := by
  induction es generalizing s with
  | nil => rfl
  | cons e es ih =>
    have hrest : ∀ e ∈ es, e.isCommand = false := fun e he => hcmd e (List.mem_cons_of_mem _ he)
    simp only [run]
    rw [ih _ hrest]
    cases e with
    | tick now => exact hid_task_inject_report now s
    | publish r => rfl
    | command buffer bufsize =>
      have := hcmd (Event.command buffer bufsize) (List.mem_cons_self _ _)
      simp [Event.isCommand] at this

/-- While no control request arrives, `left_splits` of a command with `splits > 0`
goes down by one per eligible call of `hid_task` until it is zero. -/
theorem run_left_splits_no_command (es : List Event) (s : State) (k : Nat)
    (hcmd : ∀ e ∈ es, e.isCommand = false) (hs : 0 < s.inject_report.splits)
    (hk : s.left_splits = k) :
    (run es s).1.left_splits = (k : Int) - (min k (eligible_ticks es s) : Nat) := by
  induction es generalizing s k with
  | nil => simp [run, eligible_ticks, hk]
  | cons e es ih =>
    have hrest : ∀ e ∈ es, e.isCommand = false := fun e he => hcmd e (List.mem_cons_of_mem _ he)
    cases e with
    | tick now =>
      simp only [run, step, eligible_ticks]
      have hinj := hid_task_inject_report now s
      have hleft := hid_task_left_splits now s
      by_cases hg : gate_open now s = true
      · cases k with
        | zero =>
          have hl0 : ¬ s.left_splits > 0 := by rw [hk]; simp
          have h2 : ¬ (gate_open now s = true ∧ s.left_splits > 0 ∧
              s.inject_report.splits > 0) := fun h => hl0 h.2.1
          rw [if_neg h2] at hleft
          rw [ih (hid_task now s).1 0 hrest (by rw [hinj]; exact hs) (by rw [hleft, hk])]
          simp
        | succ k =>
          have hl : s.left_splits > 0 := by rw [hk]; push_cast; omega
          rw [if_pos ⟨hg, hl, hs⟩] at hleft
          rw [ih (hid_task now s).1 k hrest (by rw [hinj]; exact hs)
            (by rw [hleft, hk]; push_cast; omega)]
          rw [if_pos hg]
          rw [show min (k + 1) (1 + eligible_ticks es (hid_task now s).1)
              = min k (eligible_ticks es (hid_task now s).1) + 1 by omega]
          push_cast; omega
      · have hclosed : gate_open now s = false := by simpa using hg
        rw [hid_task_closed now s hclosed, ih s k hrest hs hk, if_neg hg]
        simp
    | publish r =>
      simp only [run, step, eligible_ticks]
      exact ih (process_mouse_report r s) k hrest hs hk
    | command buffer bufsize =>
      have := hcmd (Event.command buffer bufsize) (List.mem_cons_self _ _)
      simp [Event.isCommand] at this

theorem tud_hid_set_report_cb_left_splits (buffer : Nat → Fin 256) (bufsize : Nat) (s : State) :
    (tud_hid_set_report_cb buffer bufsize s).left_splits =
      (tud_hid_set_report_cb buffer bufsize s).inject_report.splits := rfl

/-! ### C4: the steps of one command add up to `N * (T / N)` with C division -/

theorem working_report_process_mouse_report (r : device_report_t) (s : State) :
    working_report (process_mouse_report r s) = r := rfl

/-- When the mouse publishes before every call of `hid_task` and every call passes
the gate, the first `k` calls send the published report plus the step and the later
ones send the published report itself. -/
theorem live_rounds_output (rounds : List (device_report_t × Int)) (s : State) (k : Nat)
    (hpass : ticks_pass (live_rounds rounds) s = true) (hs : 0 < s.inject_report.splits)
    (hk : s.left_splits = k) :
    (run (live_rounds rounds) s).2 =
        (rounds.take k).map (fun p => inject_into p.1
          (Int.tdiv s.inject_report.x s.inject_report.splits,
           Int.tdiv s.inject_report.y s.inject_report.splits))
        ++ (rounds.drop k).map Prod.fst ∧
    (run (live_rounds rounds) s).1.left_splits = (k : Int) - (min k rounds.length : Nat) ∧
    (rounds ≠ [] → (run (live_rounds rounds) s).1.to_consume = false) := by
  induction rounds generalizing s k with
  | nil => simp [live_rounds, run, hk]
  | cons p ps ih =>
    simp only [live_rounds, ticks_pass, step, Bool.and_eq_true] at hpass
    obtain ⟨hg, hrest⟩ := hpass
    simp only [live_rounds, run, step, List.nil_append]
    cases k with
    | zero =>
      have hl0 : ¬ (process_mouse_report p.1 s).left_splits > 0 := by
        show ¬ s.left_splits > 0
        rw [hk]; simp
      have h1 : ¬ ((process_mouse_report p.1 s).left_splits > 0 ∧
          (process_mouse_report p.1 s).inject_report.splits > 0) := fun h => hl0 h.1
      have heq : hid_task p.2 (process_mouse_report p.1 s) =
          ({ process_mouse_report p.1 s with
              start_ms := wrap_uint32 ((process_mouse_report p.1 s).start_ms + interval_ms)
              to_consume := false }, [working_report (process_mouse_report p.1 s)]) := by
        have hc : (process_mouse_report p.1 s).to_consume = true ∨
            (process_mouse_report p.1 s).left_splits > 0 := Or.inl rfl
        rw [hid_task_eq, if_pos hg, if_pos hc, if_neg h1]
      rw [heq] at hrest ⊢
      obtain ⟨ih1, ih2, ih3⟩ := ih _ 0 hrest hs (by show s.left_splits = _; rw [hk])
      refine ⟨?_, ?_, fun _ => ?_⟩
      · rw [ih1]; simp [working_report_process_mouse_report]
      · rw [ih2]; simp
      · cases ps with
        | nil => rfl
        | cons q qs => exact ih3 (by simp)
    | succ k =>
      have hl : (process_mouse_report p.1 s).left_splits > 0 := by
        show s.left_splits > 0
        rw [hk]; push_cast; omega
      have heq := hid_task_inject p.2 (process_mouse_report p.1 s) hg hl hs
      rw [heq] at hrest ⊢
      obtain ⟨ih1, ih2, ih3⟩ := ih _ k hrest hs
        (by show s.left_splits - 1 = _; rw [hk]; push_cast; omega)
      refine ⟨?_, ?_, fun _ => ?_⟩
      · rw [ih1]; simp only [List.take_succ_cons, List.drop_succ_cons, List.map_cons,
          List.singleton_append, List.cons_append, working_report_process_mouse_report]
        rfl
      · rw [ih2]; simp only [List.length_cons]
        rw [show min (k + 1) (ps.length + 1) = min k ps.length + 1 by omega]
        push_cast; omega
      · cases ps with
        | nil => rfl
        | cons q qs => exact ih3 (by simp)

/-- With the command `{100, 0, 10}`, a report in range with `x = 5` becomes the same
report with `x = 15` and `lx` raised by 10 (saturated). -/
theorem inject_into_scenario (r : device_report_t) (hx : r.x = 5) (hr : r.InRange) :
    inject_into r (Int.tdiv 100 10, Int.tdiv 0 10) =
      { r with x := 15, lx := if r.lx + 10 > INT16_MAX then INT16_MAX else r.lx + 10 } := by
  obtain ⟨b, x, y, w, lx, ly⟩ := r
  simp only [device_report_t.InRange, INT8_MIN, INT8_MAX, INT16_MIN, INT16_MAX] at hr
  simp only at hx
  subst hx
  have h10 : Int.tdiv 100 10 = 10 := by decide
  have h0 : Int.tdiv 0 10 = 0 := by decide
  simp only [inject_into, h10, h0, saturate8, saturate16, wrap_int32, INT8_MIN, INT8_MAX,
    INT16_MIN, INT16_MAX, device_report_t.mk.injEq, true_and]
  refine ⟨by decide, ?_, ?_, ?_⟩
  · split_ifs <;> omega
  · split_ifs <;> omega
  · split_ifs <;> omega

/-- C5: from the initial state, after `tud_hid_set_report_cb` receives a buffer that
decodes to `{x = 100, y = 0, splits = 10}`, let the mouse publish a report with `x = 5`
(any other fields, in range) before every eligible call of `hid_task`. The first 10
calls each send the published report with `x = 15` (and `lx` raised by 10), `y`,
buttons and wheel as published; every later call sends the published report itself
(`x = 5`); and after at least 10 such rounds, calls of `hid_task` with no further
publication send nothing. -/
theorem end_to_end_scenario (buffer : Nat → Fin 256) (bufsize : Nat)
    (rounds : List (device_report_t × Int)) (nows : List Int)
    (hcmd : (tud_hid_set_report_cb buffer bufsize init).inject_report
      = { x := 100, y := 0, splits := 10 })
    (hlive : ∀ p ∈ rounds, p.1.x = 5 ∧ p.1.InRange)
    (hpass : ticks_pass (live_rounds rounds) (tud_hid_set_report_cb buffer bufsize init) = true) :
    (run (live_rounds rounds) (tud_hid_set_report_cb buffer bufsize init)).2 =
        (rounds.take 10).map (fun p =>
          { p.1 with x := 15, lx := if p.1.lx + 10 > INT16_MAX then INT16_MAX else p.1.lx + 10 })
        ++ (rounds.drop 10).map Prod.fst ∧
    (10 ≤ rounds.length →
      (run (nows.map Event.tick)
        (run (live_rounds rounds) (tud_hid_set_report_cb buffer bufsize init)).1).2 = []) := by
  have hleft : (tud_hid_set_report_cb buffer bufsize init).left_splits = ((10 : Nat) : Int) := by
    rw [tud_hid_set_report_cb_left_splits, hcmd]; rfl
  obtain ⟨h1, h2, h3⟩ := live_rounds_output rounds _ 10 hpass (by rw [hcmd]; decide) hleft
  rw [hcmd] at h1
  refine ⟨?_, fun hlen => ?_⟩
  · rw [h1]
    congr 1
    apply List.map_congr_left
    intro p hp
    have := hlive p (List.mem_of_mem_take hp)
    exact inject_into_scenario p.1 this.1 this.2
  · have hne : rounds ≠ [] := by
      intro h; rw [h] at hlen; simp at hlen
    refine (run_ticks_idle nows _ (h3 hne) ?_).1
    rw [h2, min_eq_left hlen]; simp

theorem end_to_end_scenario_witness :
    (run (live_rounds sample_rounds)
        (tud_hid_set_report_cb
          (buffer_of (pack_inject_report { x := 100, y := 0, splits := 10 })) 9 init)).2
      = List.replicate 10 { buttons := 1, x := 15, y := -3, wheel := 2, lx := 10, ly := 0 }
        ++ [{ buttons := 1, x := 5, y := -3, wheel := 2, lx := 0, ly := 0 }] ∧
    (run ([12, 12, 13].map Event.tick)
      (run (live_rounds sample_rounds)
        (tud_hid_set_report_cb
          (buffer_of (pack_inject_report { x := 100, y := 0, splits := 10 })) 9 init)).1).2
      = [] :=
  ⟨(end_to_end_scenario (buffer_of (pack_inject_report { x := 100, y := 0, splits := 10 })) 9
      sample_rounds [12, 12, 13] (by decide) (by decide) (by decide)).1.trans (by decide),
   (end_to_end_scenario (buffer_of (pack_inject_report { x := 100, y := 0, splits := 10 })) 9
      sample_rounds [12, 12, 13] (by decide) (by decide) (by decide)).2 (by decide)⟩

/-! ### C6: a new command replaces the one in flight -/

theorem tud_hid_set_report_cb_to_consume (buffer : Nat → Fin 256) (bufsize : Nat)
    (t : State) :
    (tud_hid_set_report_cb buffer bufsize t).to_consume = t.to_consume := by
  unfold tud_hid_set_report_cb; rfl

/-- While no control request arrives after a command with `splits > 0` and `k` splits
left, the report sent by the next eligible call of `hid_task` is the working report
plus the step of that command as long as fewer than `k` eligible calls have run, and
afterwards the published slot if one is pending, else nothing. -/
theorem next_tick_output_no_command (es : List Event) (s : State) (k : Nat) (now : Int)
    (hcmd : ∀ e ∈ es, e.isCommand = false) (hs : 0 < s.inject_report.splits)
    (hk : s.left_splits = k) (hg : gate_open now (run es s).1 = true) :
    (hid_task now (run es s).1).2 =
      if eligible_ticks es s < k then
        [inject_into (working_report (run es s).1)
          (Int.tdiv s.inject_report.x s.inject_report.splits,
           Int.tdiv s.inject_report.y s.inject_report.splits)]
      else if (run es s).1.to_consume = true then [(run es s).1.device_report]
      else [] := by
  have hinj := run_inject_report_no_command es s hcmd
  have hleft := run_left_splits_no_command es s k hcmd hs hk
  by_cases hlt : eligible_ticks es s < k
  · have hl : (run es s).1.left_splits > 0 := by
      rw [hleft, min_eq_right (le_of_lt hlt)]; omega
    have hsp : (run es s).1.inject_report.splits > 0 := by rw [hinj]; exact hs
    rw [hid_task_inject now _ hg hl hsp, if_pos hlt, hinj]
  · have hl : ¬ (run es s).1.left_splits > 0 := by
      rw [hleft, min_eq_left (not_lt.1 hlt)]; omega
    have hno : ¬ ((run es s).1.left_splits > 0 ∧ (run es s).1.inject_report.splits > 0) :=
      fun h => hl h.1
    rw [hid_task_eq, if_pos hg, if_neg hlt]
    by_cases hp : (run es s).1.to_consume = true
    · have hc : (run es s).1.to_consume = true ∨ (run es s).1.left_splits > 0 := Or.inl hp
      have hw : working_report (run es s).1 = (run es s).1.device_report := by
        unfold working_report; rw [if_pos hp]
      rw [if_pos hc, if_neg hno, if_pos hp, hw]
    · have hc : ¬ ((run es s).1.to_consume = true ∨ (run es s).1.left_splits > 0) := by
        intro h
        rcases h with h | h
        · exact hp h
        · exact hl h
      rw [if_neg hc, if_neg hp]

/-- With nothing pending, a command with `splits > 0` and `k` splits left, and calls of
`hid_task` alone: the reports sent are the zero report plus the step of that command,
one for each of the first `k` eligible calls, and nothing else. -/
theorem run_ticks_active (nows : List Int) (s : State) (k : Nat)
    (hp : s.to_consume = false) (hs : 0 < s.inject_report.splits)
    (hk : s.left_splits = k) :
    (run (nows.map Event.tick) s).2 =
      List.replicate (min k (eligible_ticks (nows.map Event.tick) s))
        (inject_into zero_report
          (Int.tdiv s.inject_report.x s.inject_report.splits,
           Int.tdiv s.inject_report.y s.inject_report.splits)) := by
  induction nows generalizing s k with
  | nil => simp [run, eligible_ticks]
  | cons now rest ih =>
    simp only [List.map_cons, run, step, eligible_ticks]
    have hinj := hid_task_inject_report now s
    by_cases hg : gate_open now s = true
    · cases k with
      | zero =>
        have hl0 : s.left_splits ≤ 0 := by rw [hk]; simp
        obtain ⟨hout, hp1, hl1⟩ := hid_task_idle now s hp hl0
        rw [hout, ih (hid_task now s).1 0 hp1 (by rw [hinj]; exact hs) (by rw [hl1, hk])]
        simp
      | succ k =>
        have hl : s.left_splits > 0 := by rw [hk]; push_cast; omega
        have hw : working_report s = zero_report := by
          unfold working_report; rw [hp]; rfl
        have heq := hid_task_inject now s hg hl hs
        have hout : (hid_task now s).2 =
            [inject_into zero_report
              (Int.tdiv s.inject_report.x s.inject_report.splits,
               Int.tdiv s.inject_report.y s.inject_report.splits)] := by
          rw [heq, hw]
        have hp1 : (hid_task now s).1.to_consume = false := by rw [heq]
        have hl1 : (hid_task now s).1.left_splits = (k : Int) := by
          rw [heq]
          show s.left_splits - 1 = _
          rw [hk]; push_cast; omega
        rw [hout, ih (hid_task now s).1 k hp1 (by rw [hinj]; exact hs) hl1, hinj, if_pos hg]
        rw [show min (k + 1) (1 + eligible_ticks (rest.map Event.tick) (hid_task now s).1)
            = min k (eligible_ticks (rest.map Event.tick) (hid_task now s).1) + 1 by omega]
        rw [List.replicate_succ]
        rfl
    · have hclosed : gate_open now s = false := by simpa using hg
      rw [hid_task_closed now s hclosed, ih s k hp hs hk, if_neg hg]
      simp

/-- C6: let a first command with `splits = N1 > 0` be stored, let fewer than `N1`
eligible calls of `hid_task` follow (no control request in between), and let a second
command with `splits = N2 > 0` be stored. The first distribution was still running
(`left_splits > 0`); from then on, while no further control request arrives, the first
`N2` eligible calls apply a step and no later call does, every step is
`(c2.x / N2, c2.y / N2)` computed from the second buffer alone, and after `N2`
eligible calls `left_splits` is zero. On the reports sent: after any such sequence of
calls, the next eligible call of `hid_task` sends the working report plus the step
`(c2.x / N2, c2.y / N2)` (each field sum formed in `int32_t` and saturated) if fewer
than `N2` eligible calls have run since the second command, and otherwise the published
slot unchanged if one is pending, else nothing; and if nothing was pending when the
second command arrived, calls of `hid_task` alone send exactly one report for each of
the first `N2` eligible calls, each the zero report plus that step, and nothing more. -/
theorem rearm_overwrite (s : State) (b1 : Nat → Fin 256) (n1 : Nat) (es1 : List Event)
    (b2 : Nat → Fin 256) (n2 : Nat) (es2 : List Event)
    (hN1 : 0 < (tud_hid_set_report_cb b1 n1 s).inject_report.splits)
    (hcmd1 : ∀ e ∈ es1, e.isCommand = false)
    (hk : eligible_ticks es1 (tud_hid_set_report_cb b1 n1 s)
      < (tud_hid_set_report_cb b1 n1 s).inject_report.splits.toNat)
    (hcmd2 : ∀ e ∈ es2, e.isCommand = false)
    (hN2 : 0 < read_int8 (b2 8)) :
    0 < (run es1 (tud_hid_set_report_cb b1 n1 s)).1.left_splits ∧
    applied_steps es2
        (tud_hid_set_report_cb b2 n2 (run es1 (tud_hid_set_report_cb b1 n1 s)).1) =
      List.replicate
        (min (read_int8 (b2 8)).toNat
          (eligible_ticks es2
            (tud_hid_set_report_cb b2 n2 (run es1 (tud_hid_set_report_cb b1 n1 s)).1)))
        (Int.tdiv (read_int32 (b2 0) (b2 1) (b2 2) (b2 3)) (read_int8 (b2 8)),
         Int.tdiv (read_int32 (b2 4) (b2 5) (b2 6) (b2 7)) (read_int8 (b2 8))) ∧
    ((read_int8 (b2 8)).toNat ≤ eligible_ticks es2
        (tud_hid_set_report_cb b2 n2 (run es1 (tud_hid_set_report_cb b1 n1 s)).1) →
      (run es2
        (tud_hid_set_report_cb b2 n2
          (run es1 (tud_hid_set_report_cb b1 n1 s)).1)).1.left_splits = 0) ∧
    (∀ now : Int,
      gate_open now (run es2
        (tud_hid_set_report_cb b2 n2
          (run es1 (tud_hid_set_report_cb b1 n1 s)).1)).1 = true →
      (hid_task now (run es2
        (tud_hid_set_report_cb b2 n2
          (run es1 (tud_hid_set_report_cb b1 n1 s)).1)).1).2 =
        if eligible_ticks es2
            (tud_hid_set_report_cb b2 n2 (run es1 (tud_hid_set_report_cb b1 n1 s)).1)
            < (read_int8 (b2 8)).toNat then
          [inject_into
            (working_report (run es2
              (tud_hid_set_report_cb b2 n2
                (run es1 (tud_hid_set_report_cb b1 n1 s)).1)).1)
            (Int.tdiv (read_int32 (b2 0) (b2 1) (b2 2) (b2 3)) (read_int8 (b2 8)),
             Int.tdiv (read_int32 (b2 4) (b2 5) (b2 6) (b2 7)) (read_int8 (b2 8)))]
        else if (run es2
            (tud_hid_set_report_cb b2 n2
              (run es1 (tud_hid_set_report_cb b1 n1 s)).1)).1.to_consume = true then
          [(run es2
            (tud_hid_set_report_cb b2 n2
              (run es1 (tud_hid_set_report_cb b1 n1 s)).1)).1.device_report]
        else []) ∧
    ((run es1 (tud_hid_set_report_cb b1 n1 s)).1.to_consume = false →
      ∀ nows : List Int,
        (run (nows.map Event.tick)
          (tud_hid_set_report_cb b2 n2 (run es1 (tud_hid_set_report_cb b1 n1 s)).1)).2 =
        List.replicate
          (min (read_int8 (b2 8)).toNat
            (eligible_ticks (nows.map Event.tick)
              (tud_hid_set_report_cb b2 n2 (run es1 (tud_hid_set_report_cb b1 n1 s)).1)))
          (inject_into zero_report
            (Int.tdiv (read_int32 (b2 0) (b2 1) (b2 2) (b2 3)) (read_int8 (b2 8)),
             Int.tdiv (read_int32 (b2 4) (b2 5) (b2 6) (b2 7)) (read_int8 (b2 8))))) := by
  have hk1 : (tud_hid_set_report_cb b1 n1 s).left_splits =
      ((tud_hid_set_report_cb b1 n1 s).inject_report.splits.toNat : Int) := by
    rw [tud_hid_set_report_cb_left_splits, Int.toNat_of_nonneg (le_of_lt hN1)]
  have hflight := run_left_splits_no_command es1 _ _ hcmd1 hN1 hk1
  have hk2 : (tud_hid_set_report_cb b2 n2
      (run es1 (tud_hid_set_report_cb b1 n1 s)).1).left_splits =
      ((read_int8 (b2 8)).toNat : Int) := by
    rw [Int.toNat_of_nonneg (le_of_lt hN2)]; rfl
  refine ⟨?_, ?_, fun hticks => ?_, fun now hg => ?_, fun hp nows => ?_⟩
  · rw [hflight, min_eq_right (le_of_lt hk)]; omega
  · exact applied_steps_no_command es2 _ _ hcmd2 hN2 hk2
  · rw [run_left_splits_no_command es2 _ _ hcmd2 hN2 hk2, min_eq_left hticks]; omega
  · exact next_tick_output_no_command es2 _ _ now hcmd2 hN2 hk2 hg
  · exact run_ticks_active nows _ _
      ((tud_hid_set_report_cb_to_consume b2 n2 _).trans hp) hN2 hk2

theorem rearm_overwrite_witness :
    (run ([3, 4, 5, 6].map Event.tick)
        (tud_hid_set_report_cb
          (buffer_of (pack_inject_report { x := 0, y := 50, splits := 2 })) 9
          (run [Event.tick 1, Event.tick 2]
            (tud_hid_set_report_cb
              (buffer_of (pack_inject_report { x := 100, y := 0, splits := 5 })) 9 init)).1)).2
      = [{ buttons := 0, x := 0, y := 25, wheel := 0, lx := 0, ly := 25 },
         { buttons := 0, x := 0, y := 25, wheel := 0, lx := 0, ly := 25 }] ∧
    (hid_task 4
        (run [Event.tick 3]
          (tud_hid_set_report_cb
            (buffer_of (pack_inject_report { x := 0, y := 50, splits := 2 })) 9
            (run [Event.tick 1, Event.tick 2]
              (tud_hid_set_report_cb
                (buffer_of (pack_inject_report { x := 100, y := 0, splits := 5 })) 9
                init)).1)).1).2
      = [{ buttons := 0, x := 0, y := 25, wheel := 0, lx := 0, ly := 25 }] ∧
    applied_steps [Event.tick 3, Event.tick 4, Event.tick 5, Event.tick 6]
        (tud_hid_set_report_cb
          (buffer_of (pack_inject_report { x := 0, y := 50, splits := 2 })) 9
          (run [Event.tick 1, Event.tick 2]
            (tud_hid_set_report_cb
              (buffer_of (pack_inject_report { x := 100, y := 0, splits := 5 })) 9 init)).1)
      = [(0, 25), (0, 25)] :=
  ⟨((rearm_overwrite init
      (buffer_of (pack_inject_report { x := 100, y := 0, splits := 5 })) 9
      [Event.tick 1, Event.tick 2]
      (buffer_of (pack_inject_report { x := 0, y := 50, splits := 2 })) 9
      []
      (by decide) (by decide) (by decide) (by decide) (by decide)).2.2.2.2
      (by decide) [3, 4, 5, 6]).trans (by decide),
   ((rearm_overwrite init
      (buffer_of (pack_inject_report { x := 100, y := 0, splits := 5 })) 9
      [Event.tick 1, Event.tick 2]
      (buffer_of (pack_inject_report { x := 0, y := 50, splits := 2 })) 9
      [Event.tick 3]
      (by decide) (by decide) (by decide) (by decide) (by decide)).2.2.2.1
      4 (by decide)).trans (by decide),
   (rearm_overwrite init
      (buffer_of (pack_inject_report { x := 100, y := 0, splits := 5 })) 9
      [Event.tick 1, Event.tick 2]
      (buffer_of (pack_inject_report { x := 0, y := 50, splits := 2 })) 9
      [Event.tick 3, Event.tick 4, Event.tick 5, Event.tick 6]
      (by decide) (by decide) (by decide) (by decide) (by decide)).2.1.trans (by decide)⟩

/-! ### C7: the last published report wins -/

/-- C7: publishing `A` and then `B` with no call of `hid_task` in between leaves the
same state as publishing `B` alone: the slot equals `B` and `to_consume` is set. The
next eligible call of `hid_task`, with no distribution active, sends exactly `B` and
clears `to_consume`. Every later execution is the one that follows publishing `B`
alone, so `A` has no influence on any report. -/
theorem last_write_wins (A B : device_report_t) (s : State) :
    process_mouse_report B (process_mouse_report A s) = process_mouse_report B s ∧
    (process_mouse_report B (process_mouse_report A s)).device_report = B ∧
    (process_mouse_report B (process_mouse_report A s)).to_consume = true ∧
    (∀ now : Int, gate_open now (process_mouse_report B (process_mouse_report A s)) = true →
      s.left_splits ≤ 0 →
      (hid_task now (process_mouse_report B (process_mouse_report A s))).2 = [B] ∧
      (hid_task now (process_mouse_report B (process_mouse_report A s))).1.to_consume = false) ∧
    (∀ es : List Event,
      run es (process_mouse_report B (process_mouse_report A s)) =
        run es (process_mouse_report B s)) := by
  refine ⟨rfl, rfl, rfl, fun now hg hl => ?_, fun es => rfl⟩
  have hc : (process_mouse_report B (process_mouse_report A s)).to_consume = true ∨
      (process_mouse_report B (process_mouse_report A s)).left_splits > 0 := Or.inl rfl
  have h1 : ¬ ((process_mouse_report B (process_mouse_report A s)).left_splits > 0 ∧
      (process_mouse_report B (process_mouse_report A s)).inject_report.splits > 0) := by
    intro h
    have : s.left_splits > 0 := h.1
    omega
  rw [hid_task_eq, if_pos hg, if_pos hc, if_neg h1]
  exact ⟨rfl, rfl⟩

theorem last_write_wins_witness :
    (hid_task 1 (process_mouse_report sample_live
      (process_mouse_report zero_report init))).2 = [sample_live] :=
  ((last_write_wins zero_report sample_live init).2.2.2.1 1 (by decide) (by decide)).1

/-! ### C8: a command with `splits ≤ 0` injects nothing -/

/-- With `left_splits ≤ 0` a call of `hid_task` sends the slot if `to_consume` is set
and the gate is open, and nothing otherwise. -/
theorem hid_task_disabled (now : Int) (s : State) (hl : s.left_splits ≤ 0) :
    (hid_task now s).2 =
      (if gate_open now s = true ∧ s.to_consume = true then [s.device_report] else []) ∧
    (hid_task now s).1.left_splits = s.left_splits := by
  have h1 : ¬ (s.left_splits > 0 ∧ s.inject_report.splits > 0) := fun h => by omega
  have h2 : ¬ (gate_open now s = true ∧ s.left_splits > 0 ∧ s.inject_report.splits > 0) :=
    fun h => by omega
  refine ⟨?_, by rw [hid_task_left_splits, if_neg h2]⟩
  rw [hid_task_eq]
  by_cases hg : gate_open now s = true
  · by_cases hp : s.to_consume = true
    · rw [if_pos hg, if_pos (Or.inl hp), if_neg h1, if_pos ⟨hg, hp⟩]
      simp [working_report, hp]
    · have h3 : ¬ (s.to_consume = true ∨ s.left_splits > 0) := fun h => by
        rcases h with h | h
        · exact hp h
        · omega
      have h4 : ¬ (gate_open now s = true ∧ s.to_consume = true) := fun h => hp h.2
      rw [if_pos hg, if_neg h3, if_neg h4]
  · have h4 : ¬ (gate_open now s = true ∧ s.to_consume = true) := fun h => hg h.1
    rw [if_neg hg, if_neg h4]

/-- With `left_splits ≤ 0` the stored command has no influence on a call of `hid_task`. -/
theorem hid_task_with_inject (now : Int) (s : State) (c : inject_report_t)
    (hl : s.left_splits ≤ 0) :
    hid_task now { s with inject_report := c } =
      ({ (hid_task now s).1 with inject_report := c }, (hid_task now s).2) := by
  have h1 : ¬ (s.left_splits > 0 ∧ s.inject_report.splits > 0) := fun h => by omega
  have h1c : ¬ (s.left_splits > 0 ∧ c.splits > 0) := fun h => by omega
  rw [hid_task_eq, hid_task_eq]
  by_cases hg : gate_open now s = true
  · have hgc : gate_open now { s with inject_report := c } = true := hg
    by_cases hc : s.to_consume = true ∨ s.left_splits > 0
    · rw [if_pos hg, if_pos hgc, if_pos hc, if_neg h1]
      simp only []
      rw [if_pos hc, if_neg h1c]
      rfl
    · rw [if_pos hg, if_pos hgc, if_neg hc]
      simp only []
      rw [if_neg hc]
  · have hgc : ¬ gate_open now { s with inject_report := c } = true := hg
    rw [if_neg hg, if_neg hgc]

theorem run_left_splits_disabled (es : List Event) (s : State)
    (hcmd : ∀ e ∈ es, e.isCommand = false) (hl : s.left_splits ≤ 0) :
    (run es s).1.left_splits = s.left_splits := by
  induction es generalizing s with
  | nil => rfl
  | cons e es ih =>
    have hrest : ∀ e ∈ es, e.isCommand = false := fun e he => hcmd e (List.mem_cons_of_mem _ he)
    simp only [run]
    cases e with
    | tick now =>
      have h := (hid_task_disabled now s hl).2
      simp only [step]
      rw [ih _ hrest (by rw [h]; exact hl), h]
    | publish r => exact ih _ hrest hl
    | command buffer bufsize =>
      have := hcmd (Event.command buffer bufsize) (List.mem_cons_self _ _)
      simp [Event.isCommand] at this

theorem applied_steps_disabled (es : List Event) (s : State)
    (hcmd : ∀ e ∈ es, e.isCommand = false) (hl : s.left_splits ≤ 0) :
    applied_steps es s = [] := by
  induction es generalizing s with
  | nil => rfl
  | cons e es ih =>
    have hrest : ∀ e ∈ es, e.isCommand = false := fun e he => hcmd e (List.mem_cons_of_mem _ he)
    cases e with
    | tick now =>
      have h := (hid_task_disabled now s hl).2
      have h2 : ¬ (gate_open now s = true ∧ (s.to_consume = true ∨ s.left_splits > 0) ∧
          s.left_splits > 0 ∧ s.inject_report.splits > 0) := fun h => by omega
      simp only [applied_steps, applied_step]
      rw [if_neg h2, ih _ hrest (by rw [h]; exact hl)]
      rfl
    | publish r => exact ih _ hrest hl
    | command buffer bufsize =>
      have := hcmd (Event.command buffer bufsize) (List.mem_cons_self _ _)
      simp [Event.isCommand] at this

/-- While `left_splits ≤ 0` and no control request arrives, the stored command has no
influence on the reports sent. -/
theorem run_with_inject (es : List Event) (s : State) (c : inject_report_t)
    (hcmd : ∀ e ∈ es, e.isCommand = false) (hl : s.left_splits ≤ 0) :
    run es { s with inject_report := c } =
      ({ (run es s).1 with inject_report := c }, (run es s).2) := by
  induction es generalizing s with
  | nil => rfl
  | cons e es ih =>
    have hrest : ∀ e ∈ es, e.isCommand = false := fun e he => hcmd e (List.mem_cons_of_mem _ he)
    cases e with
    | tick now =>
      have h := (hid_task_disabled now s hl).2
      simp only [run, step]
      rw [hid_task_with_inject now s c hl]
      simp only []
      rw [ih (hid_task now s).1 hrest (by rw [h]; exact hl)]
    | publish r =>
      have h := ih (process_mouse_report r s) hrest hl
      have hstate : process_mouse_report r { s with inject_report := c } =
          { process_mouse_report r s with inject_report := c } := rfl
      simp only [run, step]
      rw [hstate, h]
    | command buffer bufsize =>
      have := hcmd (Event.command buffer bufsize) (List.mem_cons_self _ _)
      simp [Event.isCommand] at this

/-- C8: after `tud_hid_set_report_cb` stores a command whose `splits` is zero or
negative (whatever the prior state, and whatever `x` and `y`), and while no further
control request arrives: no call of `hid_task` applies a step; in every state reached,
a call of `hid_task` sends exactly the slot as published when the gate is open and
`to_consume` is set, and nothing otherwise; and the whole sequence of reports sent is
the same for any other command with the same `splits` byte, so the command's `x` and
`y` reach no report. -/
theorem nonpositive_splits_disable_injection (s : State) (buffer : Nat → Fin 256)
    (bufsize : Nat) (es : List Event) (hcmd : ∀ e ∈ es, e.isCommand = false)
    (hsplits : read_int8 (buffer 8) ≤ 0) :
    applied_steps es (tud_hid_set_report_cb buffer bufsize s) = [] ∧
    (∀ now : Int,
      (hid_task now (run es (tud_hid_set_report_cb buffer bufsize s)).1).2 =
        if gate_open now (run es (tud_hid_set_report_cb buffer bufsize s)).1 = true ∧
            (run es (tud_hid_set_report_cb buffer bufsize s)).1.to_consume = true
        then [(run es (tud_hid_set_report_cb buffer bufsize s)).1.device_report]
        else []) ∧
    (∀ (buffer2 : Nat → Fin 256) (bufsize2 : Nat), buffer2 8 = buffer 8 →
      (run es (tud_hid_set_report_cb buffer2 bufsize2 s)).2 =
        (run es (tud_hid_set_report_cb buffer bufsize s)).2) := by
  have hl : (tud_hid_set_report_cb buffer bufsize s).left_splits ≤ 0 := hsplits
  refine ⟨applied_steps_disabled es _ hcmd hl, fun now => ?_, fun buffer2 bufsize2 h8 => ?_⟩
  · exact (hid_task_disabled now _ (by rw [run_left_splits_disabled es _ hcmd hl]; exact hl)).1
  · have hstate : tud_hid_set_report_cb buffer2 bufsize2 s =
        { tud_hid_set_report_cb buffer bufsize s with
          inject_report := (tud_hid_set_report_cb buffer2 bufsize2 s).inject_report } := by
      unfold tud_hid_set_report_cb
      rw [h8]
    rw [hstate, run_with_inject es _ _ hcmd hl]

theorem nonpositive_splits_disable_injection_witness :
    (run [Event.tick 1, Event.publish sample_live, Event.tick 2, Event.tick 3]
      (tud_hid_set_report_cb
        (buffer_of (pack_inject_report { x := 50, y := 50, splits := 0 })) 9
        sample_state)).2 =
    (run [Event.tick 1, Event.publish sample_live, Event.tick 2, Event.tick 3]
      (tud_hid_set_report_cb
        (buffer_of (pack_inject_report { x := 0, y := 0, splits := 0 })) 9
        sample_state)).2 :=
  (nonpositive_splits_disable_injection sample_state
    (buffer_of (pack_inject_report { x := 0, y := 0, splits := 0 })) 9
    [Event.tick 1, Event.publish sample_live, Event.tick 2, Event.tick 3]
    (by decide) (by decide)).2.2
    (buffer_of (pack_inject_report { x := 50, y := 50, splits := 0 })) 9 (by decide)

/-! ### C9: decoding of the 9-byte command -/

theorem low_byte_val (v : Int) : ((low_byte v).val : Int) = v % 256 := by
  unfold low_byte
  simp only []
  omega

theorem read_int32_pack (x : Int) (h1 : INT32_MIN ≤ x) (h2 : x ≤ INT32_MAX) :
    read_int32 (low_byte x) (low_byte (x / 256)) (low_byte (x / 65536))
      (low_byte (x / 16777216)) = x := by
  unfold read_int32 wrap_int32
  rw [low_byte_val, low_byte_val, low_byte_val, low_byte_val]
  unfold INT32_MIN at h1; unfold INT32_MAX at h2
  omega

theorem read_int8_pack (v : Int) (h1 : INT8_MIN ≤ v) (h2 : v ≤ INT8_MAX) :
    read_int8 (low_byte v) = v := by
  unfold read_int8 wrap_int8
  rw [low_byte_val]
  unfold INT8_MIN at h1; unfold INT8_MAX at h2
  omega

/-- The value read is the 32-bit two's complement number with the given bytes, least
significant first. -/
theorem read_int32_spec (b0 b1 b2 b3 : Fin 256) :
    INT32_MIN ≤ read_int32 b0 b1 b2 b3 ∧ read_int32 b0 b1 b2 b3 ≤ INT32_MAX ∧
    (read_int32 b0 b1 b2 b3 - (b0.val + 256 * b1.val + 65536 * b2.val + 16777216 * b3.val))
      % 4294967296 = 0 := by
  unfold read_int32 wrap_int32 INT32_MIN INT32_MAX
  omega

theorem read_int8_spec (b : Fin 256) :
    INT8_MIN ≤ read_int8 b ∧ read_int8 b ≤ INT8_MAX ∧ (read_int8 b - b.val) % 256 = 0 := by
  unfold read_int8 wrap_int8 INT8_MIN INT8_MAX
  omega

/-- C9: `tud_hid_set_report_cb` sets `inject_report.x` to the signed 32-bit value whose
little-endian bytes are `buffer[0..3]`, `inject_report.y` to that of `buffer[4..7]`,
`inject_report.splits` to `buffer[8]` read as a signed 8-bit value, and `left_splits`
to that `splits`. Hence a buffer holding the packed form of an in-range `{x, y, splits}`
decodes to `{x, y, splits}`. With the payload of the test client (`{100, 100, 1}`, after
the report-id byte) and nothing to consume, the next eligible call of `hid_task` sends
`x = y = lx = ly = 100`, leaves `left_splits = 0`, and later calls send nothing. -/
theorem command_decoding (buffer : Nat → Fin 256) (bufsize : Nat) (s : State) :
    ((INT32_MIN ≤ (tud_hid_set_report_cb buffer bufsize s).inject_report.x ∧
      (tud_hid_set_report_cb buffer bufsize s).inject_report.x ≤ INT32_MAX ∧
      ((tud_hid_set_report_cb buffer bufsize s).inject_report.x -
        ((buffer 0).val + 256 * (buffer 1).val + 65536 * (buffer 2).val
          + 16777216 * (buffer 3).val)) % 4294967296 = 0) ∧
     (INT32_MIN ≤ (tud_hid_set_report_cb buffer bufsize s).inject_report.y ∧
      (tud_hid_set_report_cb buffer bufsize s).inject_report.y ≤ INT32_MAX ∧
      ((tud_hid_set_report_cb buffer bufsize s).inject_report.y -
        ((buffer 4).val + 256 * (buffer 5).val + 65536 * (buffer 6).val
          + 16777216 * (buffer 7).val)) % 4294967296 = 0) ∧
     (INT8_MIN ≤ (tud_hid_set_report_cb buffer bufsize s).inject_report.splits ∧
      (tud_hid_set_report_cb buffer bufsize s).inject_report.splits ≤ INT8_MAX ∧
      ((tud_hid_set_report_cb buffer bufsize s).inject_report.splits - (buffer 8).val)
        % 256 = 0) ∧
     (tud_hid_set_report_cb buffer bufsize s).left_splits =
       (tud_hid_set_report_cb buffer bufsize s).inject_report.splits) ∧
    (∀ c : inject_report_t, c.InRange →
      (∀ i, i < 9 → buffer i = buffer_of (pack_inject_report c) i) →
      (tud_hid_set_report_cb buffer bufsize s).inject_report = c ∧
      (tud_hid_set_report_cb buffer bufsize s).left_splits = c.splits) ∧
    (∀ (now : Int) (nows : List Int), s.to_consume = false → gate_open now s = true →
      (hid_task now (tud_hid_set_report_cb (buffer_of test_client_report.tail) bufsize s)).2
        = [{ buttons := 0, x := 100, y := 100, wheel := 0, lx := 100, ly := 100 }] ∧
      (hid_task now
        (tud_hid_set_report_cb (buffer_of test_client_report.tail) bufsize s)).1.left_splits
        = 0 ∧
      (run (nows.map Event.tick)
        (hid_task now
          (tud_hid_set_report_cb (buffer_of test_client_report.tail) bufsize s)).1).2
        = []) := by
  refine ⟨⟨read_int32_spec _ _ _ _, read_int32_spec _ _ _ _, read_int8_spec _, rfl⟩,
    fun c hc hbuf => ?_, fun now nows hp hg => ?_⟩
  · obtain ⟨cx, cy, cs⟩ := c
    obtain ⟨hx, hy, hsp⟩ := hc
    simp only [tud_hid_set_report_cb]
    rw [hbuf 0 (by omega), hbuf 1 (by omega), hbuf 2 (by omega), hbuf 3 (by omega),
      hbuf 4 (by omega), hbuf 5 (by omega), hbuf 6 (by omega), hbuf 7 (by omega),
      hbuf 8 (by omega)]
    have e1 := read_int32_pack cx hx.1 hx.2
    have e2 := read_int32_pack cy hy.1 hy.2
    have e3 := read_int8_pack cs hsp.1 hsp.2
    simp only [buffer_of, pack_inject_report, List.getD_cons_zero, List.getD_cons_succ]
    rw [e1, e2, e3]
    exact ⟨rfl, rfl⟩
  · have hcmd : (tud_hid_set_report_cb (buffer_of test_client_report.tail) bufsize s).inject_report
        = { x := 100, y := 100, splits := 1 } := by
      have h0 : (tud_hid_set_report_cb (buffer_of test_client_report.tail) 9 init).inject_report
          = { x := 100, y := 100, splits := 1 } := by decide
      exact h0
    have hleft : (tud_hid_set_report_cb (buffer_of test_client_report.tail) bufsize s).left_splits
        = 1 := by
      rw [tud_hid_set_report_cb_left_splits, hcmd]
    have hwork : working_report
        (tud_hid_set_report_cb (buffer_of test_client_report.tail) bufsize s) = zero_report := by
      show (if s.to_consume = true then s.device_report else zero_report) = zero_report
      rw [hp]; rfl
    have heq := hid_task_inject now
      (tud_hid_set_report_cb (buffer_of test_client_report.tail) bufsize s) hg
      (by rw [hleft]; decide) (by rw [hcmd]; decide)
    rw [heq, hwork, hcmd, hleft]
    have hrep : inject_into zero_report (Int.tdiv 100 1, Int.tdiv 100 1) =
        { buttons := 0, x := 100, y := 100, wheel := 0, lx := 100, ly := 100 } := by decide
    have hzero : (1 : Int) - 1 = 0 := by decide
    refine ⟨?_, hzero, ?_⟩
    · show [inject_into zero_report (Int.tdiv 100 1, Int.tdiv 100 1)] = _
      rw [hrep]
    · exact (run_ticks_idle nows _ rfl (le_of_eq hzero)).1

theorem command_decoding_witness :
    (tud_hid_set_report_cb
        (buffer_of (pack_inject_report { x := -123456789, y := 2147483647, splits := -128 }))
        9 sample_state).inject_report
      = { x := -123456789, y := 2147483647, splits := -128 } ∧
    (hid_task 1 (tud_hid_set_report_cb (buffer_of test_client_report.tail) 9 init)).2
      = [{ buttons := 0, x := 100, y := 100, wheel := 0, lx := 100, ly := 100 }] :=
  ⟨((command_decoding
      (buffer_of (pack_inject_report { x := -123456789, y := 2147483647, splits := -128 }))
      9 sample_state).2.1 { x := -123456789, y := 2147483647, splits := -128 }
      (by decide) (fun _ _ => rfl)).1,
   ((command_decoding (buffer_of test_client_report.tail) 9 init).2.2 1 [] rfl
      (by decide)).1⟩

/-! ### C10: the payload size is not checked -/

/-- C10 as stated fails: a control request of 2 bytes is not ignored (it overwrites
`inject_report`), and the byte at offset 8, beyond the payload, decides `left_splits`. -/
theorem short_command_not_ignored :
    (2 : Nat) ≠ 9 ∧
    (tud_hid_set_report_cb (buffer_of [1, 2]) 2 init).inject_report ≠ init.inject_report ∧
    (∀ i, i < 2 → buffer_of [1, 2, 0, 0, 0, 0, 0, 0, 5] i = buffer_of [1, 2] i) ∧
    (tud_hid_set_report_cb (buffer_of [1, 2, 0, 0, 0, 0, 0, 0, 5]) 2 init).left_splits ≠
      (tud_hid_set_report_cb (buffer_of [1, 2]) 2 init).left_splits := by
  decide

/-- C10, amended: whatever `bufsize` is, `tud_hid_set_report_cb` does not look at it.
It acts as for `bufsize = 9`: it overwrites `inject_report.x`, `inject_report.y`,
`inject_report.splits` and `left_splits` with the values decoded from the bytes at
offsets 0..8 of `buffer`, leaves the rest of the state as it is, and depends on no
byte at offset 9 or beyond. -/
theorem tud_hid_set_report_cb_ignores_bufsize (buffer : Nat → Fin 256) (bufsize : Nat)
    (s : State) :
    tud_hid_set_report_cb buffer bufsize s = tud_hid_set_report_cb buffer 9 s ∧
    (tud_hid_set_report_cb buffer bufsize s).inject_report =
      { x := read_int32 (buffer 0) (buffer 1) (buffer 2) (buffer 3)
        y := read_int32 (buffer 4) (buffer 5) (buffer 6) (buffer 7)
        splits := read_int8 (buffer 8) } ∧
    (tud_hid_set_report_cb buffer bufsize s).left_splits = read_int8 (buffer 8) ∧
    (tud_hid_set_report_cb buffer bufsize s).device_report = s.device_report ∧
    (tud_hid_set_report_cb buffer bufsize s).to_consume = s.to_consume ∧
    (tud_hid_set_report_cb buffer bufsize s).start_ms = s.start_ms ∧
    (∀ buffer2 : Nat → Fin 256, (∀ i, i < 9 → buffer2 i = buffer i) →
      tud_hid_set_report_cb buffer2 bufsize s = tud_hid_set_report_cb buffer bufsize s) := by
  refine ⟨rfl, rfl, rfl, ?_, ?_, ?_, fun buffer2 h => ?_⟩
  · unfold tud_hid_set_report_cb; rfl
  · unfold tud_hid_set_report_cb; rfl
  · unfold tud_hid_set_report_cb; rfl
  unfold tud_hid_set_report_cb
  rw [h 0 (by omega), h 1 (by omega), h 2 (by omega), h 3 (by omega), h 4 (by omega),
    h 5 (by omega), h 6 (by omega), h 7 (by omega), h 8 (by omega)]

theorem tud_hid_set_report_cb_ignores_bufsize_witness :
    tud_hid_set_report_cb (buffer_of [1, 2, 0, 0, 0, 0, 0, 0, 5, 77]) 2 init =
      tud_hid_set_report_cb (buffer_of [1, 2, 0, 0, 0, 0, 0, 0, 5]) 2 init :=
  (tud_hid_set_report_cb_ignores_bufsize (buffer_of [1, 2, 0, 0, 0, 0, 0, 0, 5]) 2 init).2.2.2.2.2.2
    (buffer_of [1, 2, 0, 0, 0, 0, 0, 0, 5, 77]) (fun i hi => by interval_cases i <;> rfl)

/-! ### C11: the working report and the fields the step touches -/

theorem tdiv_int32_range (T N : Int) (h1 : INT32_MIN ≤ T) (h2 : T ≤ INT32_MAX) (hN : 0 < N) :
    INT32_MIN ≤ Int.tdiv T N ∧ Int.tdiv T N ≤ INT32_MAX := by
  unfold INT32_MIN at *
  unfold INT32_MAX at *
  rcases le_or_lt 0 T with h | h
  · have a := Int.tdiv_nonneg h (le_of_lt hN)
    have b := Int.ediv_le_self N h
    rw [← Int.tdiv_eq_ediv h (le_of_lt hN)] at b
    omega
  · have e : Int.tdiv T N = -(Int.tdiv (-T) N) := by rw [Int.neg_tdiv, neg_neg]
    have hpos : 0 ≤ -T := by omega
    have a := Int.tdiv_nonneg hpos (le_of_lt hN)
    have b := Int.ediv_le_self N hpos
    rw [← Int.tdiv_eq_ediv hpos (le_of_lt hN)] at b
    omega

/-- A call of `hid_task` that sends a report passed the gate with something to send. -/
theorem hid_task_emits_cases (now : Int) (s : State) (r : device_report_t)
    (hr : (hid_task now s).2 = [r]) :
    gate_open now s = true ∧ (s.to_consume = true ∨ s.left_splits > 0) := by
  rw [hid_task_eq] at hr
  by_cases hg : gate_open now s = true
  · by_cases hc : s.to_consume = true ∨ s.left_splits > 0
    · exact ⟨hg, hc⟩
    · rw [if_pos hg, if_neg hc] at hr
      exact absurd hr (by simp)
  · rw [if_neg hg] at hr
    exact absurd hr (by simp)

/-- C11: whenever a call of `hid_task` sends a report `r`: `to_consume` is clear
afterwards; `r` is the working report (the slot `device_report` if `to_consume` was
set, the all-zero report if not) when no step is injected, and the working report with
only `x`, `y`, `lx`, `ly` replaced by the saturated sums when a step is injected; so
the buttons and wheel of `r` are those of the slot if `to_consume` was set and 0 if
not. With nothing pending and a distribution active, `r` is the zero report plus the
saturated step, whatever the slot holds. -/
theorem emitted_report_frame (now : Int) (s : State) (r : device_report_t)
    (hr : (hid_task now s).2 = [r]) :
    (hid_task now s).1.to_consume = false ∧
    (s.to_consume = true → r.buttons = s.device_report.buttons ∧
      r.wheel = s.device_report.wheel) ∧
    (s.to_consume = false → r.buttons = 0 ∧ r.wheel = 0) ∧
    (¬ (s.left_splits > 0 ∧ s.inject_report.splits > 0) →
      r = if s.to_consume = true then s.device_report else zero_report) ∧
    (s.left_splits > 0 ∧ s.inject_report.splits > 0 →
      r = inject_into (if s.to_consume = true then s.device_report else zero_report)
        (Int.tdiv s.inject_report.x s.inject_report.splits,
         Int.tdiv s.inject_report.y s.inject_report.splits)) ∧
    (s.to_consume = false → s.left_splits > 0 → s.inject_report.splits > 0 →
      s.inject_report.InRange →
      r = { buttons := 0
            x := saturate8 (Int.tdiv s.inject_report.x s.inject_report.splits)
            y := saturate8 (Int.tdiv s.inject_report.y s.inject_report.splits)
            wheel := 0
            lx := saturate16 (Int.tdiv s.inject_report.x s.inject_report.splits)
            ly := saturate16 (Int.tdiv s.inject_report.y s.inject_report.splits) }) := by
  obtain ⟨hg, hc⟩ := hid_task_emits_cases now s r hr
  have hshape : (hid_task now s).1.to_consume = false ∧
      ((¬ (s.left_splits > 0 ∧ s.inject_report.splits > 0) → r = working_report s) ∧
       (s.left_splits > 0 ∧ s.inject_report.splits > 0 →
        r = inject_into (working_report s)
          (Int.tdiv s.inject_report.x s.inject_report.splits,
           Int.tdiv s.inject_report.y s.inject_report.splits))) := by
    rw [hid_task_eq, if_pos hg, if_pos hc] at hr ⊢
    by_cases hi : s.left_splits > 0 ∧ s.inject_report.splits > 0
    · rw [if_pos hi] at hr ⊢
      have h := List.head_eq_of_cons_eq hr
      exact ⟨rfl, fun hn => absurd hi hn, fun _ => h.symm⟩
    · rw [if_neg hi] at hr ⊢
      have h := List.head_eq_of_cons_eq hr
      exact ⟨rfl, fun _ => h.symm, fun hp => absurd hp hi⟩
  obtain ⟨hclear, hplain, hinj⟩ := hshape
  have hbw : r.buttons = (working_report s).buttons ∧ r.wheel = (working_report s).wheel := by
    by_cases hi : s.left_splits > 0 ∧ s.inject_report.splits > 0
    · rw [hinj hi]; exact ⟨rfl, rfl⟩
    · rw [hplain hi]; exact ⟨rfl, rfl⟩
  refine ⟨hclear, fun hp => ?_, fun hp => ?_, hplain, hinj, fun hp hl hsp hrange => ?_⟩
  · have hw : working_report s = s.device_report := by unfold working_report; rw [if_pos hp]
    rw [hw] at hbw; exact hbw
  · have hw : working_report s = zero_report := by
      unfold working_report; rw [hp]; rfl
    rw [hw] at hbw; exact hbw
  · have hw : working_report s = zero_report := by
      unfold working_report; rw [hp]; rfl
    rw [hinj ⟨hl, hsp⟩, hw]
    obtain ⟨hx, hy, _⟩ := hrange
    have bx := tdiv_int32_range _ _ hx.1 hx.2 hsp
    have byy := tdiv_int32_range _ _ hy.1 hy.2 hsp
    have ex : wrap_int32 (0 + Int.tdiv s.inject_report.x s.inject_report.splits)
        = Int.tdiv s.inject_report.x s.inject_report.splits := by
      rw [zero_add]; exact wrap_int32_of_range _ bx.1 bx.2
    have ey : wrap_int32 (0 + Int.tdiv s.inject_report.y s.inject_report.splits)
        = Int.tdiv s.inject_report.y s.inject_report.splits := by
      rw [zero_add]; exact wrap_int32_of_range _ byy.1 byy.2
    show inject_into zero_report _ = _
    unfold inject_into zero_report
    simp only []
    rw [ex, ey]

theorem emitted_report_frame_witness :
    stale_state.device_report = sample_live ∧ stale_state.to_consume = false ∧
    (hid_task 2 stale_state).2 =
      [{ buttons := 0, x := 10, y := -10, wheel := 0, lx := 10, ly := -10 }] ∧
    (hid_task 2 stale_state).1.to_consume = false :=
  ⟨by decide, by decide, by decide,
   (emitted_report_frame 2 stale_state
      { buttons := 0, x := 10, y := -10, wheel := 0, lx := 10, ly := -10 } (by decide)).1⟩

/-! ### C12: the 1 ms cadence gate -/

theorem gate_open_iff (now : Int) (s : State) :
    gate_open now s = true ↔ ¬ wrap_uint32 (now - s.start_ms) < 1 := by
  unfold gate_open interval_ms
  simp

theorem hid_task_start_ms (now : Int) (s : State) :
    (hid_task now s).1.start_ms =
      if gate_open now s = true then wrap_uint32 (s.start_ms + interval_ms) else s.start_ms := by
  rw [hid_task_eq]
  by_cases hg : gate_open now s = true
  · rw [if_pos hg, if_pos hg]; split_ifs <;> rfl
  · rw [if_neg hg, if_neg hg]

/-- Calls of `hid_task` at one clock value: of the first `n`, those that pass the gate
are the first `(now - start_ms) mod 2^32`. -/
theorem eligible_ticks_same_clock (now : Int) (n : Nat) (s : State) :
    eligible_ticks (List.replicate n (Event.tick now)) s =
      min n (wrap_uint32 (now - s.start_ms)).toNat := by
  induction n generalizing s with
  | zero => simp [eligible_ticks]
  | succ n ih =>
    rw [List.replicate_succ]
    simp only [eligible_ticks]
    rw [ih]
    have hst := hid_task_start_ms now s
    by_cases hg : gate_open now s = true
    · rw [if_pos hg] at hst
      rw [if_pos hg, hst]
      have hopen := (gate_open_iff now s).1 hg
      unfold wrap_uint32 interval_ms at *
      omega
    · rw [if_neg hg] at hst
      rw [if_neg hg, hst]
      have hclosed : wrap_uint32 (now - s.start_ms) < 1 := by
        by_contra h
        exact hg ((gate_open_iff now s).2 h)
      unfold wrap_uint32 at *
      omega

/-- After `n` calls of `hid_task` at one clock value the clock is ahead of `start_ms`
by what it was ahead before, less `n` (and not less than zero). -/
theorem clock_ahead_after_same_clock (now : Int) (n : Nat) (s : State) :
    (wrap_uint32 (now - (run (List.replicate n (Event.tick now)) s).1.start_ms)).toNat =
      (wrap_uint32 (now - s.start_ms)).toNat - n := by
  induction n generalizing s with
  | zero => simp [run]
  | succ n ih =>
    rw [List.replicate_succ]
    simp only [run, step]
    rw [ih]
    have hst := hid_task_start_ms now s
    by_cases hg : gate_open now s = true
    · rw [if_pos hg] at hst
      rw [hst]
      have hopen := (gate_open_iff now s).1 hg
      unfold wrap_uint32 interval_ms at *
      omega
    · rw [if_neg hg] at hst
      rw [hst]
      have hclosed : wrap_uint32 (now - s.start_ms) < 1 := by
        by_contra h
        exact hg ((gate_open_iff now s).2 h)
      unfold wrap_uint32 at *
      omega

/-- C12: for `uint32_t` values `start_ms` and `now`: when `(now - start_ms) mod 2^32 < 1`
the call of `hid_task` returns the state as it is and sends nothing; otherwise the new
`start_ms` is `(start_ms + 1) mod 2^32`, whatever `now` is. `start_ms` stays a
`uint32_t`; if `start_ms ≤ now` before the call then also after it; and of any `n`
successive calls at the clock value `now`, exactly the first
`k = (now - start_ms) mod 2^32` pass the gate (`k = now - start_ms` when
`start_ms ≤ now`). -/
theorem cadence_gate (now : Int) (s : State) (hs : is_uint32 s.start_ms)
    (hn : is_uint32 now) :
    (wrap_uint32 (now - s.start_ms) < 1 → hid_task now s = (s, [])) ∧
    (¬ wrap_uint32 (now - s.start_ms) < 1 →
      (hid_task now s).1.start_ms = (s.start_ms + 1) % 4294967296) ∧
    is_uint32 (hid_task now s).1.start_ms ∧
    (s.start_ms ≤ now → (hid_task now s).1.start_ms ≤ now) ∧
    (s.start_ms ≤ now → wrap_uint32 (now - s.start_ms) = now - s.start_ms) ∧
    (∀ n : Nat, eligible_ticks (List.replicate n (Event.tick now)) s =
      min n (wrap_uint32 (now - s.start_ms)).toNat) ∧
    (∀ n : Nat, (wrap_uint32 (now - s.start_ms)).toNat ≤ n →
      gate_open now (run (List.replicate n (Event.tick now)) s).1 = false) := by
  have hst := hid_task_start_ms now s
  unfold is_uint32 at hs hn ⊢
  refine ⟨fun hlt => ?_, fun hge => ?_, ?_, fun hle => ?_, fun hle => ?_,
    fun n => eligible_ticks_same_clock now n s, fun n hk => ?_⟩
  · apply hid_task_closed
    by_contra h
    have : gate_open now s = true := by simpa using h
    exact (gate_open_iff now s).1 this hlt
  · rw [hst, if_pos ((gate_open_iff now s).2 hge)]; rfl
  · rw [hst]
    unfold wrap_uint32 interval_ms
    split_ifs <;> omega
  · rw [hst]
    by_cases hg : gate_open now s = true
    · rw [if_pos hg]
      have hopen := (gate_open_iff now s).1 hg
      unfold wrap_uint32 interval_ms at *
      omega
    · rw [if_neg hg]; exact hle
  · unfold wrap_uint32; omega
  · have h := clock_ahead_after_same_clock now n s
    have hzero : ¬ gate_open now (run (List.replicate n (Event.tick now)) s).1 = true := by
      intro hopen
      have := (gate_open_iff now _).1 hopen
      unfold wrap_uint32 at *
      omega
    simpa using hzero

theorem cadence_gate_witness :
    hid_task 0 init = (init, []) ∧
    (hid_task 3 init).1.start_ms = 1 ∧
    eligible_ticks (List.replicate 5 (Event.tick 3)) init = 3 :=
  ⟨(cadence_gate 0 init ⟨by decide, by decide⟩ ⟨by decide, by decide⟩).1 (by decide),
   ((cadence_gate 3 init ⟨by decide, by decide⟩ ⟨by decide, by decide⟩).2.1
      (by decide)).trans (by decide),
   ((cadence_gate 3 init ⟨by decide, by decide⟩ ⟨by decide, by decide⟩).2.2.2.2.2.1
      5).trans (by decide)⟩

/-! ### C13: the invariant of the injection state -/

theorem injection_invariant_init : injection_invariant init :=
  Or.inr ⟨by decide, by decide⟩

theorem injection_invariant_command (buffer : Nat → Fin 256) (bufsize : Nat) (s : State) :
    injection_invariant (tud_hid_set_report_cb buffer bufsize s) := by
  have hl := tud_hid_set_report_cb_left_splits buffer bufsize s
  unfold injection_invariant
  rw [hl]
  by_cases h : (tud_hid_set_report_cb buffer bufsize s).inject_report.splits > 0
  · exact Or.inl ⟨h, le_of_lt h, le_refl _⟩
  · exact Or.inr ⟨not_lt.1 h, rfl⟩

theorem injection_invariant_hid_task (now : Int) (s : State) (h : injection_invariant s) :
    injection_invariant (hid_task now s).1 := by
  have hl := hid_task_left_splits now s
  have hi := hid_task_inject_report now s
  unfold injection_invariant at h ⊢
  rw [hi, hl]
  split_ifs with hc
  · rcases h with h | h
    · exact Or.inl ⟨h.1, by omega, by omega⟩
    · omega
  · exact h

/-- Every state reached from the initial state satisfies the invariant. -/
theorem injection_invariant_run (es : List Event) (s : State) (h : injection_invariant s) :
    injection_invariant (run es s).1 := by
  induction es generalizing s with
  | nil => exact h
  | cons e es ih =>
    simp only [run]
    apply ih
    cases e with
    | tick now => exact injection_invariant_hid_task now s h
    | publish r => exact h
    | command buffer bufsize => exact injection_invariant_command buffer bufsize s

/-- From a state in which `left_splits > 0` implies `splits > 0`, calls of `hid_task`
alone send at most `left_splits` reports, plus one if a report is pending. -/
theorem ticks_output_bounded (nows : List Int) (s : State)
    (h : s.left_splits > 0 → s.inject_report.splits > 0) :
    (run (nows.map Event.tick) s).2.length ≤
      s.left_splits.toNat + (if s.to_consume = true then 1 else 0) := by
  induction nows generalizing s with
  | nil => simp [run]
  | cons now rest ih =>
    simp only [List.map_cons, run, step, List.length_append]
    have hl := hid_task_left_splits now s
    have hi := hid_task_inject_report now s
    have hout := hid_task_output_applied_step now s
    have hnext : (hid_task now s).1.left_splits > 0 →
        (hid_task now s).1.inject_report.splits > 0 := by
      rw [hi, hl]; split_ifs <;> omega
    have hrest := ih (hid_task now s).1 hnext
    by_cases hg : gate_open now s = true
    · by_cases hc : s.to_consume = true ∨ s.left_splits > 0
      · have hclear : (hid_task now s).1.to_consume = false := by
          rw [hid_task_eq, if_pos hg, if_pos hc]; split_ifs <;> rfl
        rw [hclear] at hrest
        by_cases hpos : s.left_splits > 0
        · have hsp := h hpos
          rw [if_pos ⟨hg, hpos, hsp⟩] at hl
          have hstep : applied_step now s = some
              (Int.tdiv s.inject_report.x s.inject_report.splits,
               Int.tdiv s.inject_report.y s.inject_report.splits) := by
            unfold applied_step; rw [if_pos ⟨hg, hc, hpos, hsp⟩]
          rw [hstep] at hout
          rw [hout, hl] at *
          simp only [List.length_singleton, Bool.false_eq_true, if_false] at hrest ⊢
          split_ifs <;> omega
        · have hcons : s.to_consume = true := by
            rcases hc with hc | hc
            · exact hc
            · exact absurd hc hpos
          have hno : ¬ (gate_open now s = true ∧ s.left_splits > 0 ∧
              s.inject_report.splits > 0) := fun hh => hpos hh.2.1
          rw [if_neg hno] at hl
          have hstep : applied_step now s = none := by
            unfold applied_step
            have : ¬ (gate_open now s = true ∧ (s.to_consume = true ∨ s.left_splits > 0) ∧
                s.left_splits > 0 ∧ s.inject_report.splits > 0) := fun hh => hpos hh.2.2.1
            rw [if_neg this]
          rw [hstep] at hout
          simp only [] at hout
          rw [if_pos ⟨hg, hc⟩] at hout
          rw [hout, hl] at *
          simp only [List.length_singleton, Bool.false_eq_true, if_false] at hrest ⊢
          rw [if_pos hcons]
          omega
      · have hidle : hid_task now s =
            ({ s with start_ms := wrap_uint32 (s.start_ms + interval_ms) }, []) := by
          rw [hid_task_eq, if_pos hg, if_neg hc]
        rw [hidle] at hrest ⊢
        simpa using hrest
    · have hclosed : gate_open now s = false := by simpa using hg
      rw [hid_task_closed now s hclosed] at hrest ⊢
      simpa using hrest

/-- C13: in every state reached from the initial state by any sequence of calls of
`tud_hid_set_report_cb`, `process_mouse_report` and `hid_task`, either
`inject_report.splits > 0` and `0 ≤ left_splits ≤ inject_report.splits`, or
`inject_report.splits ≤ 0` and `left_splits = inject_report.splits`. Hence
`left_splits > 0` implies `inject_report.splits > 0` (the divisor is positive whenever a
distribution is active), an eligible call of `hid_task` in a reached state with
`left_splits > 0` applies a step and decrements `left_splits`, and from a reached state
calls of `hid_task` alone send at most `left_splits` reports plus one for a pending
report. -/
theorem reachable_injection_invariant (es : List Event) :
    injection_invariant (run es init).1 ∧
    ((run es init).1.left_splits > 0 → (run es init).1.inject_report.splits > 0) ∧
    (∀ now : Int, gate_open now (run es init).1 = true → (run es init).1.left_splits > 0 →
      (hid_task now (run es init).1).1.left_splits = (run es init).1.left_splits - 1 ∧
      applied_step now (run es init).1 = some
        (Int.tdiv (run es init).1.inject_report.x (run es init).1.inject_report.splits,
         Int.tdiv (run es init).1.inject_report.y (run es init).1.inject_report.splits)) ∧
    (∀ nows : List Int,
      (run (nows.map Event.tick) (run es init).1).2.length ≤
        (run es init).1.left_splits.toNat +
          (if (run es init).1.to_consume = true then 1 else 0)) := by
  have hinv := injection_invariant_run es init injection_invariant_init
  have hpos : (run es init).1.left_splits > 0 → (run es init).1.inject_report.splits > 0 := by
    intro hl
    rcases hinv with h | h
    · exact h.1
    · omega
  refine ⟨hinv, hpos, fun now hg hl => ⟨?_, ?_⟩, fun nows => ticks_output_bounded nows _ hpos⟩
  · rw [hid_task_left_splits, if_pos ⟨hg, hl, hpos hl⟩]
  · unfold applied_step
    rw [if_pos ⟨hg, Or.inr hl, hl, hpos hl⟩]

theorem reachable_injection_invariant_witness :
    injection_invariant stale_state ∧
    (hid_task 2 stale_state).1.left_splits = stale_state.left_splits - 1 :=
  ⟨(reachable_injection_invariant
      [Event.command (buffer_of (pack_inject_report { x := 30, y := -30, splits := 3 })) 9,
       Event.publish sample_live, Event.tick 1]).1,
   ((reachable_injection_invariant
      [Event.command (buffer_of (pack_inject_report { x := 30, y := -30, splits := 3 })) 9,
       Event.publish sample_live, Event.tick 1]).2.2.1 2 (by decide) (by decide)).1⟩

end MouseProxy
